import Mathlib

/-!
Verification development for the `sql_parser_enhanced` procedural SQL
structural analyzer.  The Python sources are shallowly embedded as
executable Lean definitions; the theorems below settle behavioural claims
about the analyzer pipeline.

Conventions of the embedding:
* Python strings are `String` / `List Char`; positions are character counts
  (all inputs considered are ASCII, where Python's code-point positions and
  character positions agree).
* Python `None` is `Option.none`; a Python function that can raise is
  embedded with an `Option` result (`none` = exception).
* The regular expressions used by the analyzer are small fixed patterns;
  each is embedded by a dedicated executable scanner implementing that
  pattern's matches (leftmost match, non-overlapping iteration, the same
  greedy/lazy behaviour).
-/

namespace SqlParser

/-! ## Character and string scanning utilities -/

/-- Python `\s` character class (` `, TAB, LF, CR, VT, FF). -/
def isWsChar (c : Char) : Bool :=
  c = ' ' || c = '\t' || c = '\n' || c = '\r' || c = '\x0b' || c = '\x0c'

/-- Python `\w` character class restricted to ASCII (letters, digits, `_`). -/
def isWordChar (c : Char) : Bool :=
  c.isAlphanum || c = '_'

/-- Uppercase a character list (Python `str.upper` on ASCII input). -/
def upChars (cs : List Char) : List Char := cs.map Char.toUpper

/-- Uppercase a string. -/
def upStr (s : String) : String := ⟨upChars s.data⟩

/-- `beginsWith pat s`: `s` starts with `pat` (case sensitive). -/
def beginsWith : List Char → List Char → Bool
  | [], _ => true
  | _ :: _, [] => false
  | p :: ps, c :: cs => p = c && beginsWith ps cs

/-- `beginsWithCI pat s`: `s` starts with `pat` up to ASCII case. -/
def beginsWithCI (pat s : List Char) : Bool :=
  beginsWith (upChars pat) (upChars (s.take pat.length))

/-- Python `pat in s` (substring containment, case sensitive). -/
def hasSub (pat : List Char) : List Char → Bool
  | [] => pat.isEmpty
  | c :: cs => beginsWith pat (c :: cs) || hasSub pat cs

/-- Substring containment up to ASCII case. -/
def hasSubCI (pat s : List Char) : Bool := hasSub (upChars pat) (upChars s)

/-- Index of the first occurrence of `pat` in `s` (Python `str.find`),
`none` when absent. -/
def firstSubIdx (pat : List Char) : List Char → Option Nat
  | [] => if pat.isEmpty then some 0 else none
  | c :: cs =>
    if beginsWith pat (c :: cs) then some 0
    else (firstSubIdx pat cs).map (· + 1)

/-- Length of the maximal whitespace run at the head of the list. -/
def wsRun : List Char → Nat
  | [] => 0
  | c :: cs => if isWsChar c then wsRun cs + 1 else 0

/-- Length of the maximal run of characters satisfying `p` at the head. -/
def runLen (p : Char → Bool) : List Char → Nat
  | [] => 0
  | c :: cs => if p c then runLen p cs + 1 else 0

/-- Python `str.strip()`: remove leading and trailing whitespace. -/
def stripWs (cs : List Char) : List Char :=
  ((cs.dropWhile isWsChar).reverse.dropWhile isWsChar).reverse

/-- `str.strip()` on `String`. -/
def stripWsStr (s : String) : String := ⟨stripWs s.data⟩

/-- Whether the character at index `i` is a `\w` character (out-of-range
counts as non-word, matching Python's treatment of the string edges). -/
def wordAt (s : List Char) (i : Nat) : Bool :=
  match s.get? i with
  | some c => isWordChar c
  | none => false

/-- Python `\b` at position `i` of `s`: the word-ness of the characters on
the two sides of the position differs. -/
def boundaryAt (s : List Char) (i : Nat) : Bool :=
  match i with
  | 0 => wordAt s 0
  | Nat.succ j => wordAt s j != wordAt s (j + 1)

/-- Count of newline characters (Python `text[:pos].count('\n')`). -/
def nlCount (cs : List Char) : Nat := cs.countP (· = '\n')

end SqlParser

namespace SqlParser

/-! ## Python values and `clean_output_for_json`
(`sql_parser_enhanced/output_generator.py`) -/

mutual

/-- A Python value as handled by `clean_output_for_json`.  `vother`
represents any object that is not `None`/`bool`/number/`str`/`list`/`dict`;
its payload is the object's `str()` form. -/
inductive PyVal where
  | vnone : PyVal
  | vbool : Bool → PyVal
  | vnum : Int → PyVal
  | vstr : String → PyVal
  | vlist : PyList → PyVal
  | vdict : PyDict → PyVal
  | vother : String → PyVal

/-- A Python list of values. -/
inductive PyList where
  | nil : PyList
  | cons : PyVal → PyList → PyList

/-- A Python dict with string keys, in insertion order. -/
inductive PyDict where
  | nil : PyDict
  | cons : String → PyVal → PyDict → PyDict

end

/-- Append of embedded Python dicts (used to assemble output documents). -/
def dAppend : PyDict → PyDict → PyDict
  | .nil, d => d
  | .cons k v rest, d => .cons k v (dAppend rest d)

/-- Key list of an embedded Python dict, in order. -/
def dKeys : PyDict → List String
  | .nil => []
  | .cons k _ rest => k :: dKeys rest

/-- First-match key lookup in an embedded Python dict. -/
def dLookup (key : String) : PyDict → Option PyVal
  | .nil => none
  | .cons k v rest => if k = key then some v else dLookup key rest

/-- Emptiness of an embedded Python list (Python truthiness of a list). -/
def PyList.isNil : PyList → Bool
  | .nil => true
  | .cons _ _ => false

mutual

/-- `clean_output_for_json` (top level): dictionaries and lists are
processed, every other value is returned unchanged. -/
def cleanVal : PyVal → PyVal
  | .vdict kvs => .vdict (cleanDict kvs)
  | .vlist xs => .vlist (cleanElems xs)
  | v => v

/-- The dictionary branch of `clean_output_for_json`: keys with `None`
values are dropped; dict/list values are cleaned recursively; primitive
values are kept; any other value is replaced by its `str()` form. -/
def cleanDict : PyDict → PyDict
  | .nil => .nil
  | .cons k v rest =>
    match v with
    | .vnone => cleanDict rest
    | .vdict kvs => .cons k (.vdict (cleanDict kvs)) (cleanDict rest)
    | .vlist xs => .cons k (.vlist (cleanElems xs)) (cleanDict rest)
    | .vbool b => .cons k (.vbool b) (cleanDict rest)
    | .vnum n => .cons k (.vnum n) (cleanDict rest)
    | .vstr s => .cons k (.vstr s) (cleanDict rest)
    | .vother s => .cons k (.vstr s) (cleanDict rest)

/-- The list comprehension used for list values:
`clean_output_for_json(item) if isinstance(item, (dict, list)) else item` —
elements that are not dicts or lists pass through unchanged. -/
def cleanElems : PyList → PyList
  | .nil => .nil
  | .cons x rest =>
    .cons
      (match x with
       | .vdict kvs => PyVal.vdict (cleanDict kvs)
       | .vlist xs => PyVal.vlist (cleanElems xs)
       | other => other)
      (cleanElems rest)

end

mutual

/-- Invariant actually established by `clean_output_for_json`: inside every
dictionary (at any depth) no value is `None` and no value is a
non-primitive object, and nested dicts/lists satisfy the same property;
list elements that are not dicts/lists are unconstrained. -/
def cleanedVal : PyVal → Bool
  | .vdict kvs => cleanedDict kvs
  | .vlist xs => cleanedElems xs
  | _ => true

/-- Dictionary part of the `cleanedVal` invariant. -/
def cleanedDict : PyDict → Bool
  | .nil => true
  | .cons _ v rest =>
    (match v with
     | .vnone => false
     | .vother _ => false
     | .vdict kvs => cleanedDict kvs
     | .vlist xs => cleanedElems xs
     | _ => true) && cleanedDict rest

/-- List part of the `cleanedVal` invariant. -/
def cleanedElems : PyList → Bool
  | .nil => true
  | .cons x rest =>
    (match x with
     | .vdict kvs => cleanedDict kvs
     | .vlist xs => cleanedElems xs
     | _ => true) && cleanedElems rest

end

mutual

/-- The property claimed by the spec for the cleaner's output: recursively,
no dictionary key has a null value and every value that is not an
object/array/string/number/boolean has been converted to its string
form — so no `None` and no non-primitive object survives anywhere,
including inside arrays. -/
def specCleanVal : PyVal → Bool
  | .vnone => false
  | .vother _ => false
  | .vdict kvs => specCleanDict kvs
  | .vlist xs => specCleanElems xs
  | _ => true

/-- Dictionary part of `specCleanVal`. -/
def specCleanDict : PyDict → Bool
  | .nil => true
  | .cons _ v rest => specCleanVal v && specCleanDict rest

/-- List part of `specCleanVal`. -/
def specCleanElems : PyList → Bool
  | .nil => true
  | .cons x rest => specCleanVal x && specCleanElems rest

end

mutual

theorem cleanDict_cleaned : ∀ kvs, cleanedDict (cleanDict kvs) = true
  | .nil => rfl
  | .cons k v rest => by
    cases v <;>
      simp [cleanDict, cleanedDict, cleanDict_cleaned rest,
        cleanDict_cleaned, cleanElems_cleaned]

theorem cleanElems_cleaned : ∀ xs, cleanedElems (cleanElems xs) = true
  | .nil => rfl
  | .cons x rest => by
    cases x <;>
      simp [cleanElems, cleanedElems, cleanDict, cleanedDict,
        cleanElems_cleaned rest, cleanDict_cleaned, cleanElems_cleaned]

end

end SqlParser

namespace SqlParser

/-! ## Output assembly (`OutputGenerator.generate_json` and
`process_single_file`) -/

/-- The conditional sections of `OutputGenerator.generate_json`: a section
key is added only when its collection is non-empty (Python list
truthiness). -/
def optionalEntry (key : String) (xs : PyList) : PyDict :=
  if xs.isNil then .nil else .cons key (.vlist xs) .nil

/-- The enhanced sections of `OutputGenerator.generate_json`, in source
order, each present only when non-empty. -/
def enhancedEntries (dataFlows statementPurposes parameterUsage queryPatterns
    repositoryBoundaries implementationComplexity testValueCandidates : PyList) :
    PyDict :=
  dAppend (optionalEntry "dataFlow" dataFlows)
    (dAppend (optionalEntry "statementPurpose" statementPurposes)
      (dAppend (optionalEntry "parameterUsage" parameterUsage)
        (dAppend (optionalEntry "queryPatterns" queryPatterns)
          (dAppend (optionalEntry "repositoryBoundaries" repositoryBoundaries)
            (dAppend (optionalEntry "implementationComplexity" implementationComplexity)
              (optionalEntry "testValueCandidates" testValueCandidates))))))

/-- `OutputGenerator.generate_json`'s output dictionary: the four basic
sections always, then each enhanced section only when non-empty, in the
order of the source. -/
def generateOutput (metadata logicalBlocks tableReferences potentialRules : PyVal)
    (dataFlows statementPurposes parameterUsage queryPatterns
     repositoryBoundaries implementationComplexity testValueCandidates : PyList) :
    PyDict :=
  dAppend
    (.cons "metadata" metadata
      (.cons "logicalBlocks" logicalBlocks
        (.cons "tableReferences" tableReferences
          (.cons "potentialBusinessRules" potentialRules .nil))))
    (enhancedEntries dataFlows statementPurposes parameterUsage queryPatterns
      repositoryBoundaries implementationComplexity testValueCandidates)

/-- The document written by `process_single_file` in full mode: the
generated dictionary passed through `clean_output_for_json`. -/
def fullDocument (metadata logicalBlocks tableReferences potentialRules : PyVal)
    (dataFlows statementPurposes parameterUsage queryPatterns
     repositoryBoundaries implementationComplexity testValueCandidates : PyList) :
    PyVal :=
  cleanVal (.vdict (generateOutput metadata logicalBlocks tableReferences potentialRules
    dataFlows statementPurposes parameterUsage queryPatterns
    repositoryBoundaries implementationComplexity testValueCandidates))

/-- The document written by `process_single_file` in basic mode: only the
four basic sections are passed to the generator (the optional constructor
arguments default to empty), then the same cleaning pass runs. -/
def basicDocument (metadata logicalBlocks tableReferences potentialRules : PyVal) : PyVal :=
  cleanVal (.vdict (generateOutput metadata logicalBlocks tableReferences potentialRules
    .nil .nil .nil .nil .nil .nil .nil))

/-- Top-level keys of a document. -/
def docKeys : PyVal → List String
  | .vdict kvs => dKeys kvs
  | _ => []

/-- Top-level lookup in a document. -/
def docLookup (key : String) : PyVal → Option PyVal
  | .vdict kvs => dLookup key kvs
  | _ => none

/-- Strict subset relation on key lists, viewed as sets. -/
def strictKeySubset (xs ys : List String) : Prop :=
  xs ⊆ ys ∧ ∃ k, k ∈ ys ∧ k ∉ xs

theorem cleanDict_dAppend : ∀ a b : PyDict,
    cleanDict (dAppend a b) = dAppend (cleanDict a) (cleanDict b)
  | .nil, _ => rfl
  | .cons k v rest, b => by
    cases v <;> simp [dAppend, cleanDict, cleanDict_dAppend rest b]

theorem dKeys_dAppend : ∀ a b : PyDict,
    dKeys (dAppend a b) = dKeys a ++ dKeys b
  | .nil, _ => rfl
  | .cons k v rest, b => by simp [dAppend, dKeys, dKeys_dAppend rest b]

theorem dLookup_dAppend (key : String) : ∀ a b : PyDict,
    dLookup key (dAppend a b) =
      match dLookup key a with
      | some v => some v
      | none => dLookup key b
  | .nil, _ => rfl
  | .cons k v rest, b => by
    by_cases h : k = key <;> simp [dAppend, dLookup, h, dLookup_dAppend key rest b]

theorem dKeys_cleanDict_sub : ∀ d : PyDict, dKeys (cleanDict d) ⊆ dKeys d
  | .nil => by simp [cleanDict, dKeys]
  | .cons k v rest => by
    have ih := dKeys_cleanDict_sub rest
    cases v <;> simp [cleanDict, dKeys] <;>
      exact fun x hx => List.mem_cons_of_mem _ (ih hx)

theorem dLookup_none_of_not_mem (key : String) : ∀ d : PyDict,
    key ∉ dKeys d → dLookup key d = none
  | .nil, _ => rfl
  | .cons k v rest, h => by
    simp [dKeys] at h
    have hk : ¬ k = key := fun hh => h.1 hh.symm
    simp [dLookup, hk, dLookup_none_of_not_mem key rest h.2]

theorem dKeys_optionalEntry (key : String) (xs : PyList) :
    dKeys (optionalEntry key xs) ⊆ [key] := by
  by_cases h : xs.isNil <;> simp [optionalEntry, h, dKeys]

/-- The seven enhanced-section keys. -/
def enhancedKeys : List String :=
  ["dataFlow", "statementPurpose", "parameterUsage", "queryPatterns",
   "repositoryBoundaries", "implementationComplexity", "testValueCandidates"]

/-- The four basic-section keys. -/
def basicKeys : List String :=
  ["metadata", "logicalBlocks", "tableReferences", "potentialBusinessRules"]

theorem dKeys_enhancedEntries_sub (df sp pu qp rb ic tv : PyList) :
    dKeys (enhancedEntries df sp pu qp rb ic tv) ⊆ enhancedKeys := by
  simp only [enhancedEntries, dKeys_dAppend]
  refine List.append_subset.mpr ⟨?_, List.append_subset.mpr ⟨?_,
    List.append_subset.mpr ⟨?_, List.append_subset.mpr ⟨?_,
    List.append_subset.mpr ⟨?_, List.append_subset.mpr ⟨?_, ?_⟩⟩⟩⟩⟩⟩ <;>
    exact List.Subset.trans (dKeys_optionalEntry _ _)
      (by intro x hx; simp at hx; subst hx; simp [enhancedKeys])

theorem dAppend_nil_right : ∀ d : PyDict, dAppend d .nil = d
  | .nil => rfl
  | .cons k v rest => by simp [dAppend, dAppend_nil_right rest]

/-- C8 (counterexample): on an input whose enhanced analyses are all empty
(for example an empty `.sql` file: no statements, no parameters, no data
flows, and a single `AUXILIARY` root block produces no query patterns,
boundaries or complexity flags), the full-mode document has exactly the
same top-level keys as the basic-mode document, so the basic-mode key set
is not a strict subset of the full-mode key set. -/
theorem basicMode_keys_not_strict :
    docKeys (fullDocument
        (.vdict (.cons "procedureName" (.vstr "empty")
          (.cons "parameters" (.vlist .nil) .nil)))
        (.vlist (.cons (.vdict (.cons "id" (.vstr "block_0")
          (.cons "type" (.vstr "PROCEDURE_BODY") .nil))) .nil))
        (.vlist .nil) (.vlist .nil) .nil .nil .nil .nil .nil .nil .nil)
      = docKeys (basicDocument
        (.vdict (.cons "procedureName" (.vstr "empty")
          (.cons "parameters" (.vlist .nil) .nil)))
        (.vlist (.cons (.vdict (.cons "id" (.vstr "block_0")
          (.cons "type" (.vstr "PROCEDURE_BODY") .nil))) .nil))
        (.vlist .nil) (.vlist .nil)) ∧
    ¬ strictKeySubset
        (docKeys (basicDocument
          (.vdict (.cons "procedureName" (.vstr "empty")
            (.cons "parameters" (.vlist .nil) .nil)))
          (.vlist (.cons (.vdict (.cons "id" (.vstr "block_0")
            (.cons "type" (.vstr "PROCEDURE_BODY") .nil))) .nil))
          (.vlist .nil) (.vlist .nil)))
        (docKeys (fullDocument
          (.vdict (.cons "procedureName" (.vstr "empty")
            (.cons "parameters" (.vlist .nil) .nil)))
          (.vlist (.cons (.vdict (.cons "id" (.vstr "block_0")
            (.cons "type" (.vstr "PROCEDURE_BODY") .nil))) .nil))
          (.vlist .nil) (.vlist .nil) .nil .nil .nil .nil .nil .nil .nil)) := by
  constructor
  · rfl
  · rintro ⟨-, k, hk, hnk⟩
    exact hnk (by simpa using hk)

/-- C8 (amended): for any stage outputs, the basic-mode document's
top-level keys are a subset (not necessarily strict) of the full-mode
document's keys, and the four shared sections `metadata`, `logicalBlocks`,
`tableReferences` and `potentialBusinessRules` have identical values in the
two documents; the subset is strict exactly when at least one enhanced
collection is non-empty. -/
theorem basicMode_subset_of_fullMode
    (m b r p : PyVal) (df sp pu qp rb ic tv : PyList) :
    docKeys (basicDocument m b r p) ⊆
      docKeys (fullDocument m b r p df sp pu qp rb ic tv) ∧
    ∀ k ∈ basicKeys,
      docLookup k (fullDocument m b r p df sp pu qp rb ic tv) =
        docLookup k (basicDocument m b r p) := by
  have hbase :
      basicDocument m b r p =
        .vdict (cleanDict (.cons "metadata" m
          (.cons "logicalBlocks" b
            (.cons "tableReferences" r
              (.cons "potentialBusinessRules" p .nil))))) := by
    simp [basicDocument, generateOutput, enhancedEntries, optionalEntry,
      PyList.isNil, dAppend, dAppend_nil_right, cleanVal]
  have hfull :
      fullDocument m b r p df sp pu qp rb ic tv =
        .vdict (dAppend
          (cleanDict (.cons "metadata" m
            (.cons "logicalBlocks" b
              (.cons "tableReferences" r
                (.cons "potentialBusinessRules" p .nil)))))
          (cleanDict (enhancedEntries df sp pu qp rb ic tv))) := by
    simp [fullDocument, generateOutput, cleanVal, cleanDict_dAppend]
  constructor
  · rw [hbase, hfull]
    simp only [docKeys, dKeys_dAppend]
    exact fun k hk => List.mem_append_left _ hk
  · intro k hk
    have hnot : k ∉ dKeys (cleanDict (enhancedEntries df sp pu qp rb ic tv)) := by
      intro hmem
      have h1 : k ∈ enhancedKeys :=
        dKeys_enhancedEntries_sub df sp pu qp rb ic tv
          (dKeys_cleanDict_sub _ hmem)
      fin_cases hk <;> simp [enhancedKeys] at h1
    rw [hbase, hfull]
    simp only [docLookup, dLookup_dAppend,
      dLookup_none_of_not_mem k _ hnot]
    cases dLookup k (cleanDict (.cons "metadata" m
      (.cons "logicalBlocks" b
        (.cons "tableReferences" r
          (.cons "potentialBusinessRules" p .nil))))) <;> rfl

/-- C9 (counterexample): `clean_output_for_json` leaves a `None` and a
non-primitive object inside an array unchanged, so the output can contain
values that are neither object/array/string/number/boolean and have not
been converted to strings. -/
theorem clean_output_array_elements_kept :
    cleanVal (.vdict (.cons "a"
        (.vlist (.cons .vnone (.cons (.vother "obj") .nil))) .nil))
      = .vdict (.cons "a"
        (.vlist (.cons .vnone (.cons (.vother "obj") .nil))) .nil) ∧
    specCleanVal (cleanVal (.vdict (.cons "a"
        (.vlist (.cons .vnone (.cons (.vother "obj") .nil))) .nil))) = false :=
  ⟨rfl, rfl⟩

/-- C9 (amended): `clean_output_for_json` guarantees that, at every nesting
depth, no dictionary entry has a null value and every dictionary value that
is not an object/array/string/number/boolean is converted to its string
form; elements inside arrays that are not objects or arrays are passed
through unchanged (so nulls and non-primitive values inside arrays may
survive). -/
theorem clean_output_dict_invariant (v : PyVal) : cleanedVal (cleanVal v) = true := by
  cases v <;> simp [cleanVal, cleanedVal, cleanDict_cleaned, cleanElems_cleaned]

end SqlParser

namespace SqlParser

/-! ## Shared records of the analyzer pipeline -/

/-- A logical block as produced by `StructureAnalyzer` (the fields used by
the later stages). -/
structure LogicalBlock where
  id : String
  btype : String
  lineLo : Int
  lineHi : Int
  parentBlock : Option String
  codeText : String
deriving Repr, DecidableEq

/-- A table reference as produced by `OperationDetector`. -/
structure TableRef where
  table : String
  operation : String
  columns : List String
  blockId : Option String
deriving Repr, DecidableEq

/-- A variable assignment recorded by
`DataFlowAnalyzer._extract_variable_assignments`.  The `variable` group of
the `SET`/`SELECT` assignment regexes is `@\w+`, so `varName` always starts
with `@`. -/
structure VarAssignment where
  varName : String
  expression : String
  blockId : Option String
  lineNumber : Int
  sourceEntities : List String
deriving Repr, DecidableEq

/-- A `populatedFrom` entry of a temp structure
(`OperationDetector._analyze_temp_table_operations` always creates it with
the `tableReference`, `operation` and `blockId` keys). -/
structure TempPopulation where
  tableReference : String
  operation : String
  blockId : Option String
deriving Repr, DecidableEq

/-- A `usedIn` entry of a temp structure (always created with the
`operation`, `blockId` and `businessPurpose` keys). -/
structure TempUsage where
  operation : String
  blockId : Option String
  businessPurpose : String
deriving Repr, DecidableEq

/-- A `transformations` entry of a temp structure. -/
structure TempTransformation where
  ttype : String
  blockId : Option String
  description : String
deriving Repr, DecidableEq

/-- A temporary structure as produced by
`OperationDetector._extract_temp_table`. -/
structure TempStructure where
  name : String
  ttype : String
  definition : String
  columns : List (String × String)
  populatedFrom : List TempPopulation
  usedIn : List TempUsage
  transformations : List TempTransformation
deriving Repr, DecidableEq

/-- A data flow emitted by `DataFlowAnalyzer`; only the direct table-flow
pass attaches a `transformations` key. -/
structure DataFlow where
  flowId : String
  sourceEntities : List String
  intermediateEntities : List String
  targetEntities : List String
  operations : List String
  blockIds : List (Option String)
  transformations : Option (List PyVal)

end SqlParser

namespace SqlParser

/-! ## DataFlowAnalyzer (`sql_parser_enhanced/data_flow_analyzer.py`)

`_extract_transformations` (regex extraction of JOIN/aggregate/WHERE
descriptors from a block's text) feeds only the advisory `transformations`
field of direct table flows, so the analyzer is parametrised by it (`tf`
below); all theorems hold for every such function. -/

/-- Insert a reference into the per-block groups, preserving first-seen
key order (Python dict insertion order). -/
def addRefToGroups (bid : String) (r : TableRef) :
    List (String × List TableRef) → List (String × List TableRef)
  | [] => [(bid, [r])]
  | (k, rs) :: rest =>
    if k = bid then (k, rs ++ [r]) :: rest
    else (k, rs) :: addRefToGroups bid r rest

/-- `_analyze_table_flows`' grouping of table references by `blockId`;
references whose `blockId` is falsy (`None` or empty) are skipped. -/
def groupRefsByBlock (refs : List TableRef) : List (String × List TableRef) :=
  refs.foldl (fun acc r =>
    match r.blockId with
    | none => acc
    | some bid => if bid = "" then acc else addRefToGroups bid r acc) []

/-- The `operations` list of a direct table flow: keyword checks on the
containing block's text, then the target's DML verb. -/
def tableFlowOps (blockOpt : Option LogicalBlock) (targetOp : String) : List String :=
  (match blockOpt with
   | some blk =>
     (if hasSub "JOIN".data (upStr blk.codeText).data then ["JOIN"] else []) ++
     (if hasSub "WHERE".data (upStr blk.codeText).data then ["FILTER"] else []) ++
     (if hasSub "GROUP BY".data (upStr blk.codeText).data then ["AGGREGATE"] else []) ++
     (if hasSub "ORDER BY".data (upStr blk.codeText).data then ["SORT"] else [])
   | none => []) ++
  (if targetOp = "INSERT" then ["INSERT"]
   else if targetOp = "UPDATE" then ["UPDATE"] else [])

/-- The inner target loop of `_analyze_table_flows`.  When the block id has
no matching block, the source dereferences `None` while extracting
transformations (a `TypeError`), embedded as `none`. -/
def flowsForTargets (tf : String → List PyVal) (blocks : List LogicalBlock)
    (bid : String) (sources : List TableRef) :
    List TableRef → Nat → Option (List DataFlow)
  | [], _ => some []
  | t :: ts, n =>
    match blocks.find? (fun blk => blk.id = bid) with
    | none => none
    | some blk =>
      let flow : DataFlow :=
        { flowId := "flow_" ++ toString n
          sourceEntities := sources.map (·.table)
          intermediateEntities := []
          targetEntities := [t.table]
          operations := tableFlowOps (some blk) t.operation
          blockIds := [some bid]
          transformations := some (tf blk.codeText) }
      (flowsForTargets tf blocks bid sources ts (n + 1)).map (flow :: ·)

/-- The per-group loop of `_analyze_table_flows`: a flow is synthesized per
INSERT/UPDATE target when the block also has SELECT sources. -/
def tableFlowsFromGroups (tf : String → List PyVal) (blocks : List LogicalBlock) :
    List (String × List TableRef) → Nat → Option (List DataFlow)
  | [], _ => some []
  | (bid, rs) :: rest, n =>
    let targets := rs.filter (fun r => r.operation = "INSERT" || r.operation = "UPDATE")
    let sources := rs.filter (fun r => r.operation = "SELECT")
    if targets.isEmpty || sources.isEmpty then tableFlowsFromGroups tf blocks rest n
    else
      match flowsForTargets tf blocks bid sources targets n with
      | none => none
      | some fs =>
        match tableFlowsFromGroups tf blocks rest (n + fs.length) with
        | none => none
        | some more => some (fs ++ more)

/-- `_analyze_table_flows`. -/
def analyzeTableFlows (tf : String → List PyVal) (blocks : List LogicalBlock)
    (refs : List TableRef) : Option (List DataFlow) :=
  tableFlowsFromGroups tf blocks (groupRefsByBlock refs) 0

/-- The `operations` list of a variable-mediated flow. -/
def varFlowOps (refOp : String) (blk : LogicalBlock) : List String :=
  if refOp = "INSERT" then ["INSERT"]
  else if refOp = "UPDATE" then ["UPDATE"]
  else if refOp = "DELETE" then ["DELETE"]
  else if hasSub "WHERE".data (upStr blk.codeText).data then ["FILTER"]
  else []

/-- The inner reference loop of `_analyze_variable_flows`: a flow per table
reference whose linked block's text contains the variable name (plain
case-sensitive substring test, as in the source). -/
def varFlowsForRefs (blocks : List LogicalBlock) (a : VarAssignment) :
    List TableRef → Nat → List DataFlow
  | [], _ => []
  | r :: rs, n =>
    match r.blockId with
    | none => varFlowsForRefs blocks a rs n
    | some bid =>
      if bid = "" then varFlowsForRefs blocks a rs n
      else
        match blocks.find? (fun blk => blk.id = bid) with
        | none => varFlowsForRefs blocks a rs n
        | some blk =>
          if hasSub a.varName.data blk.codeText.data then
            { flowId := "flow_" ++ toString n
              sourceEntities := a.sourceEntities
              intermediateEntities := [a.varName]
              targetEntities := [r.table]
              operations := varFlowOps r.operation blk
              blockIds := [a.blockId, some bid]
              transformations := none } :: varFlowsForRefs blocks a rs (n + 1)
          else varFlowsForRefs blocks a rs n

/-- `_analyze_variable_flows`: only assignments with non-empty
`sourceEntities` produce flows. -/
def analyzeVariableFlows (blocks : List LogicalBlock) (refs : List TableRef) :
    List VarAssignment → Nat → List DataFlow
  | [], _ => []
  | a :: rest, n =>
    if a.sourceEntities.isEmpty then analyzeVariableFlows blocks refs rest n
    else
      let fs := varFlowsForRefs blocks a refs n
      fs ++ analyzeVariableFlows blocks refs rest (n + fs.length)

/-- Replacement scan: `skip` counts characters of an already-replaced
pattern occurrence still to be dropped, so a replaced occurrence is not
rescanned (non-overlapping replacement). -/
def replAux (pat sub : List Char) : List Char → Nat → List Char
  | [], _ => []
  | _ :: cs, Nat.succ skip => replAux pat sub cs skip
  | c :: cs, 0 =>
    if beginsWith pat (c :: cs) then sub ++ replAux pat sub cs (pat.length - 1)
    else c :: replAux pat sub cs 0

/-- Python `str.replace` (replace every occurrence; an empty pattern is
returned unchanged, a case the analyzer never hits). -/
def strReplaceAll (pat sub s : List Char) : List Char :=
  match pat with
  | [] => s
  | _ :: _ => replAux pat sub s 0

/-- Target entities of a temp-table flow: the tables named by
`INSERT_INTO_<table>` usage entries. -/
def tempFlowTargets (usedIn : List TempUsage) : List String :=
  usedIn.filterMap (fun u =>
    if beginsWith "INSERT_INTO_".data u.operation.data then
      some ⟨strReplaceAll "INSERT_INTO_".data [] u.operation.data⟩
    else none)

/-- Append with membership dedup (the `not in` accumulation pattern). -/
def dedupAppend {α : Type} [DecidableEq α] (acc : List α) (x : α) : List α :=
  if x ∈ acc then acc else acc ++ [x]

/-- `_analyze_temp_table_flows`: one flow per temp structure whose source
or target list is non-empty (the source's `or` test). -/
def analyzeTempFlows : List TempStructure → Nat → List DataFlow
  | [], _ => []
  | temp :: rest, n =>
    let src := temp.populatedFrom.map (·.tableReference)
    let tgt := tempFlowTargets temp.usedIn
    if src.isEmpty && tgt.isEmpty then analyzeTempFlows rest n
    else
      { flowId := "flow_" ++ toString n
        sourceEntities := src
        intermediateEntities := [temp.name]
        targetEntities := tgt
        operations := temp.transformations.foldl (fun acc t => dedupAppend acc t.ttype) []
        blockIds :=
          (temp.populatedFrom.map (·.blockId) ++ temp.usedIn.map (·.blockId)).foldl
            dedupAppend []
        transformations := none } :: analyzeTempFlows rest (n + 1)

/-- `DataFlowAnalyzer.analyze_data_flows`: direct table flows, then
variable-mediated flows, then temp-table flows, accumulated in one list
(`none` when the table-flow pass raises). -/
def analyzeDataFlows (tf : String → List PyVal) (va : List VarAssignment)
    (blocks : List LogicalBlock) (refs : List TableRef)
    (temps : List TempStructure) : Option (List DataFlow) :=
  match analyzeTableFlows tf blocks refs with
  | none => none
  | some t1 =>
    let t2 := analyzeVariableFlows blocks refs va t1.length
    let t3 := analyzeTempFlows temps (t1.length + t2.length)
    some (t1 ++ t2 ++ t3)

/-- The claim's non-degeneracy property for a flow list: every flow has a
non-empty source list and a non-empty target list. -/
def flowsNondegenerate (flows : List DataFlow) : Prop :=
  ∀ fl ∈ flows, fl.sourceEntities ≠ [] ∧ fl.targetEntities ≠ []

theorem flowsForTargets_nondeg (tf : String → List PyVal)
    (blocks : List LogicalBlock) (bid : String) (sources : List TableRef)
    (hs : sources ≠ []) :
    ∀ (ts : List TableRef) (n : Nat) (fs : List DataFlow),
      flowsForTargets tf blocks bid sources ts n = some fs →
      ∀ fl ∈ fs, fl.sourceEntities ≠ [] ∧ fl.targetEntities ≠ []
  | [], n, fs, h => by
    simp only [flowsForTargets, Option.some.injEq] at h
    subst h; intro fl hfl; cases hfl
  | t :: ts, n, fs, h => by
    simp only [flowsForTargets] at h
    cases hfind : blocks.find? (fun blk => blk.id = bid) with
    | none => rw [hfind] at h; cases h
    | some blk =>
      rw [hfind] at h
      cases hrec : flowsForTargets tf blocks bid sources ts (n + 1) with
      | none => rw [hrec] at h; cases h
      | some fs2 =>
        rw [hrec] at h
        have h2 := Option.some.inj h
        subst h2
        intro fl hfl
        rcases List.mem_cons.mp hfl with rfl | hmem
        · refine ⟨?_, by simp⟩
          simpa using hs
        · exact flowsForTargets_nondeg tf blocks bid sources hs ts (n + 1) fs2 hrec fl hmem

theorem tableFlowsFromGroups_nondeg (tf : String → List PyVal)
    (blocks : List LogicalBlock) :
    ∀ (groups : List (String × List TableRef)) (n : Nat) (fs : List DataFlow),
      tableFlowsFromGroups tf blocks groups n = some fs →
      ∀ fl ∈ fs, fl.sourceEntities ≠ [] ∧ fl.targetEntities ≠ []
  | [], n, fs, h => by
    simp only [tableFlowsFromGroups, Option.some.injEq] at h
    subst h; intro fl hfl; cases hfl
  | (bid, rs) :: rest, n, fs, h => by
    simp only [tableFlowsFromGroups] at h
    by_cases hguard :
        (rs.filter (fun r => r.operation = "INSERT" || r.operation = "UPDATE")).isEmpty ||
        (rs.filter (fun r => r.operation = "SELECT")).isEmpty
    · rw [if_pos hguard] at h
      exact tableFlowsFromGroups_nondeg tf blocks rest n fs h
    · rw [if_neg hguard] at h
      have hsrc : rs.filter (fun r => r.operation = "SELECT") ≠ [] := by
        intro hnil
        exact hguard (by simp [hnil])
      cases h1 : flowsForTargets tf blocks bid
          (rs.filter (fun r => r.operation = "SELECT"))
          (rs.filter (fun r => r.operation = "INSERT" || r.operation = "UPDATE")) n with
      | none => rw [h1] at h; cases h
      | some fs1 =>
        rw [h1] at h
        have h' : (match tableFlowsFromGroups tf blocks rest (n + fs1.length) with
            | none => none
            | some more => some (fs1 ++ more)) = some fs := h
        cases h2 : tableFlowsFromGroups tf blocks rest (n + fs1.length) with
        | none => rw [h2] at h'; cases h'
        | some fs2 =>
          rw [h2] at h'
          have h3 := Option.some.inj h'
          subst h3
          intro fl hfl
          rcases List.mem_append.mp hfl with hmem | hmem
          · exact flowsForTargets_nondeg tf blocks bid _ hsrc _ n fs1 h1 fl hmem
          · exact tableFlowsFromGroups_nondeg tf blocks rest (n + fs1.length) fs2 h2 fl hmem

theorem varFlowsForRefs_nondeg (blocks : List LogicalBlock) (a : VarAssignment)
    (ha : a.sourceEntities ≠ []) :
    ∀ (rs : List TableRef) (n : Nat),
      ∀ fl ∈ varFlowsForRefs blocks a rs n,
        fl.sourceEntities ≠ [] ∧ fl.targetEntities ≠ []
  | [], n, fl, hfl => by cases hfl
  | r :: rs, n, fl, hfl => by
    simp only [varFlowsForRefs] at hfl
    cases hbid : r.blockId with
    | none =>
      simp only [hbid] at hfl
      exact varFlowsForRefs_nondeg blocks a ha rs n fl hfl
    | some bid =>
      simp only [hbid] at hfl
      by_cases hemp : bid = ""
      · rw [if_pos hemp] at hfl
        exact varFlowsForRefs_nondeg blocks a ha rs n fl hfl
      · rw [if_neg hemp] at hfl
        cases hfind : blocks.find? (fun blk => blk.id = bid) with
        | none =>
          simp only [hfind] at hfl
          exact varFlowsForRefs_nondeg blocks a ha rs n fl hfl
        | some blk =>
          simp only [hfind] at hfl
          by_cases hin : hasSub a.varName.data blk.codeText.data = true
          · rw [if_pos hin] at hfl
            rcases List.mem_cons.mp hfl with rfl | hmem
            · exact ⟨ha, by simp⟩
            · exact varFlowsForRefs_nondeg blocks a ha rs (n + 1) fl hmem
          · rw [if_neg hin] at hfl
            exact varFlowsForRefs_nondeg blocks a ha rs n fl hfl

theorem analyzeVariableFlows_nondeg (blocks : List LogicalBlock)
    (refs : List TableRef) :
    ∀ (va : List VarAssignment) (n : Nat),
      ∀ fl ∈ analyzeVariableFlows blocks refs va n,
        fl.sourceEntities ≠ [] ∧ fl.targetEntities ≠ []
  | [], n, fl, hfl => by cases hfl
  | a :: rest, n, fl, hfl => by
    simp only [analyzeVariableFlows] at hfl
    by_cases hemp : a.sourceEntities.isEmpty
    · rw [if_pos hemp] at hfl
      exact analyzeVariableFlows_nondeg blocks refs rest n fl hfl
    · rw [if_neg hemp] at hfl
      have ha : a.sourceEntities ≠ [] := by
        intro hnil; exact hemp (by simp [hnil])
      rcases List.mem_append.mp hfl with hmem | hmem
      · exact varFlowsForRefs_nondeg blocks a ha refs n fl hmem
      · exact analyzeVariableFlows_nondeg blocks refs rest _ fl hmem

theorem analyzeTempFlows_nondeg :
    ∀ (temps : List TempStructure) (n : Nat),
      ∀ fl ∈ analyzeTempFlows temps n,
        fl.sourceEntities ≠ [] ∨ fl.targetEntities ≠ []
  | [], n, fl, hfl => by cases hfl
  | temp :: rest, n, fl, hfl => by
    simp only [analyzeTempFlows] at hfl
    by_cases hguard :
        ((temp.populatedFrom.map (·.tableReference)).isEmpty &&
          (tempFlowTargets temp.usedIn).isEmpty) = true
    · rw [if_pos hguard] at hfl
      exact analyzeTempFlows_nondeg rest n fl hfl
    · rw [if_neg hguard] at hfl
      rcases List.mem_cons.mp hfl with rfl | hmem
      · by_cases hsrc : temp.populatedFrom.map (·.tableReference) = []
        · right
          intro htgt
          exact hguard (by simp [hsrc, List.isEmpty_iff.mpr htgt])
        · left; exact hsrc
      · exact analyzeTempFlows_nondeg rest (n + 1) fl hmem

/-- C1 (amended): every data flow emitted by `analyze_data_flows` has a
non-empty source list or a non-empty target list.  Direct table flows and
variable-mediated flows always have both non-empty, but a temp-table flow
is emitted as soon as its source or its target list is non-empty (the
source tests `source_entities or target_entities`), so one of the two may
be empty. -/
theorem dataflow_flows_nondegenerate_or (tf : String → List PyVal)
    (va : List VarAssignment) (blocks : List LogicalBlock)
    (refs : List TableRef) (temps : List TempStructure) (flows : List DataFlow)
    (h : analyzeDataFlows tf va blocks refs temps = some flows) :
    ∀ fl ∈ flows, fl.sourceEntities ≠ [] ∨ fl.targetEntities ≠ [] := by
  simp only [analyzeDataFlows, analyzeTableFlows] at h
  cases h1 : tableFlowsFromGroups tf blocks (groupRefsByBlock refs) 0 with
  | none => rw [h1] at h; cases h
  | some t1 =>
    rw [h1] at h
    have h2 := Option.some.inj h
    subst h2
    intro fl hfl
    rcases List.mem_append.mp hfl with hfl12 | hmem3
    · rcases List.mem_append.mp hfl12 with hmem1 | hmem2
      · exact Or.inl (tableFlowsFromGroups_nondeg tf blocks _ 0 t1 h1 fl hmem1).1
      · exact Or.inl (analyzeVariableFlows_nondeg blocks refs va t1.length fl hmem2).1
    · exact analyzeTempFlows_nondeg temps _ fl hmem3

/-- A temp structure populated from a permanent table but never read into
a permanent table: `populatedFrom` is non-empty while `usedIn` is empty. -/
def sourceOnlyTemp : TempStructure :=
  { name := "#T", ttype := "LOCAL_TEMP",
    definition := "CREATE TABLE #T (Id INT)",
    columns := [("Id", "INT")],
    populatedFrom :=
      [{ tableReference := "Src", operation := "SELECT_INTO_TEMP",
         blockId := some "block_1" }],
    usedIn := [], transformations := [] }

/-- C1 (counterexample): for the analyzer state holding one temp structure
with a recorded source and no `INSERT_INTO_` usage, `analyze_data_flows`
emits a flow whose `targetEntities` list is empty — the claimed filtering
of flows with an empty source or target does not happen in the temp-table
pass. -/
theorem temp_flow_with_empty_target_emitted :
    analyzeDataFlows (fun _ => []) [] [] [] [sourceOnlyTemp] =
      some [{ flowId := "flow_0", sourceEntities := ["Src"],
              intermediateEntities := ["#T"], targetEntities := [],
              operations := [], blockIds := [some "block_1"],
              transformations := none }] ∧
    ¬ flowsNondegenerate
        [{ flowId := "flow_0", sourceEntities := ["Src"],
           intermediateEntities := ["#T"], targetEntities := [],
           operations := [], blockIds := [some "block_1"],
           transformations := none }] := by
  refine ⟨rfl, fun h => ?_⟩
  exact (h _ (List.mem_singleton_self _)).2 rfl

/-- C1 (witness): the amended theorem applied to the concrete analyzer
state of the counterexample. -/
theorem dataflow_flows_nondegenerate_or_witness :
    ({ flowId := "flow_0", sourceEntities := ["Src"],
       intermediateEntities := ["#T"], targetEntities := [],
       operations := [], blockIds := [some "block_1"],
       transformations := none } : DataFlow).sourceEntities ≠ [] ∨
    ({ flowId := "flow_0", sourceEntities := ["Src"],
       intermediateEntities := ["#T"], targetEntities := [],
       operations := [], blockIds := [some "block_1"],
       transformations := none } : DataFlow).targetEntities ≠ [] :=
  dataflow_flows_nondegenerate_or (fun _ => []) [] [] [] [sourceOnlyTemp]
    [{ flowId := "flow_0", sourceEntities := ["Src"],
       intermediateEntities := ["#T"], targetEntities := [],
       operations := [], blockIds := [some "block_1"],
       transformations := none }] rfl _ (List.mem_singleton_self _)

end SqlParser

namespace SqlParser

/-! ## StructureAnalyzer nesting resolution
(`StructureAnalyzer._identify_nested_blocks`) -/

/-- The sort key comparison of `_identify_nested_blocks`:
`(start ascending, end descending)`. -/
def nestKeyLe (a b : LogicalBlock) : Bool :=
  a.lineLo < b.lineLo || (a.lineLo = b.lineLo && b.lineHi ≤ a.lineHi)

/-- Insert into an already sorted list, after all elements that compare
less-or-equal (so earlier-inserted equal elements stay first). -/
def insSorted {α : Type} (le : α → α → Bool) (x : α) : List α → List α
  | [] => [x]
  | y :: ys => if le y x then y :: insSorted le x ys else x :: y :: ys

/-- Stable sort (insertion of the elements in list order); for a total
preorder this coincides with Python's stable `sorted`. -/
def pySorted {α : Type} (le : α → α → Bool) (xs : List α) : List α :=
  xs.foldl (fun acc x => insSorted le x acc) []

/-- Non-strict line-range containment, as tested by the source
(`potential_parent["lineRange"][0] <= ... and ... >= ...`). -/
def containsRange (p b : LogicalBlock) : Bool :=
  p.lineLo ≤ b.lineLo && b.lineHi ≤ p.lineHi

/-- The parent-assignment loop of `_identify_nested_blocks`: each block
without a parent is assigned the first block of the already-processed
sorted list whose range contains it (`for potential_parent in
sorted_blocks[:i] ... break`); the containment test reads only line ranges,
which the pass never changes, so the processed blocks can be carried in
their original form. -/
def assignParentsGo : List LogicalBlock → List LogicalBlock → List LogicalBlock
  | _, [] => []
  | pre, b :: rest =>
    (match b.parentBlock with
     | some _ => b
     | none =>
       { b with parentBlock := (pre.find? (fun p => containsRange p b)).map (·.id) })
      :: assignParentsGo (pre ++ [b]) rest

/-- `_identify_nested_blocks`: sort by `(start asc, end desc)`, assign
parents by first-containing-predecessor, and return the blocks in their
original order with the updated parents (the source mutates the block
dicts; block ids are unique within a run). -/
def identifyNestedBlocks (blocks : List LogicalBlock) : List LogicalBlock :=
  let sortedBlocks := pySorted nestKeyLe blocks
  let updated := assignParentsGo [] sortedBlocks
  blocks.map (fun b => (updated.find? (fun u => u.id = b.id)).getD b)

/-- Strict (proper) line-range containment, as demanded by the claim. -/
def strictlyContains (p b : LogicalBlock) : Bool :=
  (p.lineLo ≤ b.lineLo && b.lineHi ≤ p.lineHi) &&
    !(p.lineLo = b.lineLo && p.lineHi = b.lineHi)

/-- The parent demanded by the claim: the nearest preceding block (in
sorted order) whose line range strictly contains the block's range. -/
def nearestPrecedingStrictContainer (preceding : List LogicalBlock)
    (b : LogicalBlock) : Option String :=
  (preceding.reverse.find? (fun p => strictlyContains p b)).map (·.id)

theorem assignParents_first_container :
    ∀ (pre l1 l2 : List LogicalBlock) (b : LogicalBlock),
      b.parentBlock = none →
      (assignParentsGo pre (l1 ++ b :: l2)).get? l1.length =
        some { b with
          parentBlock := ((pre ++ l1).find? (fun p => containsRange p b)).map (·.id) }
  | pre, [], l2, b, hb => by
    simp [assignParentsGo, hb]
  | pre, a :: l1, l2, b, hb => by
    simpa [assignParentsGo, List.append_assoc] using
      assignParents_first_container (pre ++ [a]) l1 l2 b hb

/-- C7 (amended): in the nesting-resolution pass, a block created without a
parent is assigned as parent the first block preceding it in the
`(start asc, end desc)` sorted order whose line range non-strictly contains
the block's range (so the outermost containing predecessor, not the
nearest); blocks with no containing predecessor keep a null parent, and
already-parented blocks are left unchanged. -/
theorem nested_parent_is_first_container (blocks l1 l2 : List LogicalBlock)
    (b : LogicalBlock) (hs : pySorted nestKeyLe blocks = l1 ++ b :: l2)
    (hb : b.parentBlock = none) :
    (assignParentsGo [] (pySorted nestKeyLe blocks)).get? l1.length =
      some { b with
        parentBlock := (l1.find? (fun p => containsRange p b)).map (·.id) } := by
  rw [hs]
  simpa using assignParents_first_container [] l1 l2 b hb

/-- Outer block spanning lines 0–10. -/
def nestedBlockA : LogicalBlock :=
  { id := "block_0", btype := "BEGIN_END", lineLo := 0, lineHi := 10,
    parentBlock := none, codeText := "" }

/-- Middle block spanning lines 1–9, strictly inside `nestedBlockA`. -/
def nestedBlockB : LogicalBlock :=
  { id := "block_1", btype := "BEGIN_END", lineLo := 1, lineHi := 9,
    parentBlock := none, codeText := "" }

/-- Inner block spanning lines 2–3, strictly inside both. -/
def nestedBlockC : LogicalBlock :=
  { id := "block_2", btype := "IF", lineLo := 2, lineHi := 3,
    parentBlock := none, codeText := "" }

/-- C7 (counterexample): for three nested unparented blocks the pass
assigns the innermost block `block_2` the outermost container `block_0` as
parent, while the nearest preceding strictly-containing block in the
sorted order is `block_1` — the claim's "nearest preceding" is refuted
(the scan starts from the beginning of the sorted prefix). -/
theorem nested_parent_not_nearest :
    (identifyNestedBlocks [nestedBlockA, nestedBlockB, nestedBlockC]).map
        (·.parentBlock) =
      [none, some "block_0", some "block_0"] ∧
    nearestPrecedingStrictContainer [nestedBlockA, nestedBlockB] nestedBlockC =
      some "block_1" ∧
    pySorted nestKeyLe [nestedBlockA, nestedBlockB, nestedBlockC] =
      [nestedBlockA, nestedBlockB, nestedBlockC] := by
  refine ⟨?_, rfl, rfl⟩
  rfl

/-- C7 (witness): the amended theorem applied to the concrete three-block
scenario of the counterexample. -/
theorem nested_parent_is_first_container_witness :
    (assignParentsGo []
        (pySorted nestKeyLe [nestedBlockA, nestedBlockB, nestedBlockC])).get? 2 =
      some { nestedBlockC with parentBlock := some "block_0" } := by
  have h := nested_parent_is_first_container
    [nestedBlockA, nestedBlockB, nestedBlockC]
    [nestedBlockA, nestedBlockB] [] nestedBlockC rfl rfl
  simpa [nestedBlockA, nestedBlockB, nestedBlockC, containsRange] using h

end SqlParser

namespace SqlParser

/-! ## Word-boundary search (the `\b<literal>\b` case-insensitive patterns
of the analyzer) -/

/-- Scan for non-overlapping case-insensitive matches of the literal
`pat` with `\b` anchors on both sides, as `re.finditer` produces them:
`rest` is the unscanned suffix at index `i` of `full`, and `skip` counts
characters of the previous match still to be stepped over. -/
def wbScan (pat full : List Char) : List Char → Nat → Nat → List Nat
  | [], _, _ => []
  | _ :: cs, i, Nat.succ k => wbScan pat full cs (i + 1) k
  | c :: cs, i, 0 =>
    if beginsWithCI pat (c :: cs) && boundaryAt full i &&
        boundaryAt full (i + pat.length) then
      i :: wbScan pat full cs (i + 1) (pat.length - 1)
    else wbScan pat full cs (i + 1) 0

/-- All match positions of `re.finditer(r'\b' + re.escape(pat) + r'\b', s,
re.IGNORECASE)` for a non-empty literal `pat` (the analyzer only searches
table and parameter names, which are never empty). -/
def wbMatches (pat s : List Char) : List Nat :=
  match pat with
  | [] => []
  | _ :: _ => wbScan pat s s 0 0

/-- `re.search` of the same pattern: at least one match exists. -/
def wbHasMatch (pat s : List Char) : Bool :=
  !(wbMatches pat s).isEmpty

end SqlParser

namespace SqlParser

/-! ## OperationDetector linking post-pass
(`OperationDetector._link_references_to_blocks` and
`_link_dynamic_sql_to_blocks`) -/

/-- The operation keyword looked for in block text: `MERGE_TARGET` and
`MERGE_SOURCE` collapse to `MERGE`. -/
def refOpKeyword (r : TableRef) : String :=
  if r.operation = "MERGE_TARGET" || r.operation = "MERGE_SOURCE" then "MERGE"
  else r.operation

/-- A block matches a reference when its text contains the table name as a
word-boundary case-insensitive match and the operation keyword as a
substring of the uppercased text. -/
def refBlockMatch (r : TableRef) (b : LogicalBlock) : Bool :=
  wbHasMatch r.table.data b.codeText.data &&
    hasSub (refOpKeyword r).data (upStr b.codeText).data

/-- The block loop of `_link_references_to_blocks` for one reference: on a
table-name match the operation keyword is tested, and only a double match
sets the block id and breaks; otherwise the loop continues. -/
def linkRefLoop (r : TableRef) : List LogicalBlock → TableRef
  | [] => r
  | b :: rest =>
    if wbHasMatch r.table.data b.codeText.data then
      if hasSub (refOpKeyword r).data (upStr b.codeText).data then
        { r with blockId := some b.id }
      else linkRefLoop r rest
    else linkRefLoop r rest

/-- `_link_references_to_blocks`. -/
def linkReferencesToBlocks (blocks : List LogicalBlock)
    (refs : List TableRef) : List TableRef :=
  refs.map (fun r => linkRefLoop r blocks)

/-- A dynamic SQL operation as produced by
`OperationDetector._extract_dynamic_sql` (potential queries are opaque to
the linking pass). -/
structure DynamicSqlOp where
  id : String
  blockId : Option String
  constructionPattern : String
  parameters : List (String × String)
  potentialQueries : List PyVal
  businessPurpose : String

/-- The `param\s*=` / `param\s*\+=` search of the `STRING_BUILDING`
branch: the parameter name (case-insensitively), optional whitespace, and
`=` or `+=`. -/
def sbParamMatch (name : List Char) : List Char → Bool
  | [] => false
  | c :: cs =>
    (beginsWithCI name (c :: cs) &&
      (let rest := ((c :: cs).drop name.length)
       let rest2 := rest.drop (wsRun rest)
       beginsWith "=".data rest2 || beginsWith "+=".data rest2)) ||
    sbParamMatch name cs

/-- Whether a block matches a `STRING_BUILDING` operation: some parameter
of the operation is assigned or appended to in the block's text. -/
def sbBlockCond (op : DynamicSqlOp) (b : LogicalBlock) : Bool :=
  op.parameters.any (fun p => sbParamMatch p.1.data b.codeText.data)

/-- The marker condition of the three break-on-first-match construction
patterns. -/
def dynMarkerCond (op : DynamicSqlOp) (b : LogicalBlock) : Bool :=
  if op.constructionPattern = "DIRECT_EXEC" then
    hasSub "EXEC(".data (upStr b.codeText).data
  else if op.constructionPattern = "SP_EXECUTESQL" then
    hasSub "SP_EXECUTESQL".data (upStr b.codeText).data
  else if op.constructionPattern = "EXEC_STATEMENT" then
    hasSub "EXEC ".data (upStr b.codeText).data ||
      hasSub "EXECUTE ".data (upStr b.codeText).data
  else false

/-- The block loop of `_link_dynamic_sql_to_blocks` for one operation: the
first three construction patterns break on their first matching block; the
`STRING_BUILDING` branch only breaks the inner parameter loop, so the
outer loop continues and later matching blocks overwrite the block id. -/
def linkDynLoop (op : DynamicSqlOp) : List LogicalBlock → DynamicSqlOp
  | [] => op
  | b :: rest =>
    if op.constructionPattern = "DIRECT_EXEC" &&
        hasSub "EXEC(".data (upStr b.codeText).data then
      { op with blockId := some b.id }
    else if op.constructionPattern = "SP_EXECUTESQL" &&
        hasSub "SP_EXECUTESQL".data (upStr b.codeText).data then
      { op with blockId := some b.id }
    else if op.constructionPattern = "EXEC_STATEMENT" &&
        (hasSub "EXEC ".data (upStr b.codeText).data ||
         hasSub "EXECUTE ".data (upStr b.codeText).data) then
      { op with blockId := some b.id }
    else if op.constructionPattern = "STRING_BUILDING" then
      linkDynLoop
        (if sbBlockCond op b then { op with blockId := some b.id } else op) rest
    else linkDynLoop op rest

/-- `_link_dynamic_sql_to_blocks`. -/
def linkDynamicSqlToBlocks (blocks : List LogicalBlock)
    (ops : List DynamicSqlOp) : List DynamicSqlOp :=
  ops.map (fun op => linkDynLoop op blocks)

theorem linkRefLoop_first_match (r : TableRef) :
    ∀ blocks : List LogicalBlock,
      linkRefLoop r blocks =
        match blocks.find? (refBlockMatch r) with
        | some b => { r with blockId := some b.id }
        | none => r
  | [] => rfl
  | b :: rest => by
    by_cases h1 : wbHasMatch r.table.data b.codeText.data = true
    · by_cases h2 : hasSub (refOpKeyword r).data (upStr b.codeText).data = true
      · simp [linkRefLoop, List.find?, refBlockMatch, h1, h2]
      · simp [linkRefLoop, List.find?, refBlockMatch, h1, h2,
          linkRefLoop_first_match r rest]
    · simp [linkRefLoop, List.find?, refBlockMatch, h1,
        linkRefLoop_first_match r rest]

theorem linkDynLoop_sb (op : DynamicSqlOp)
    (hsb : op.constructionPattern = "STRING_BUILDING") :
    ∀ blocks : List LogicalBlock,
      linkDynLoop op blocks =
        { op with blockId := (blocks.foldl
            (fun cur b => if sbBlockCond op b then some b.id else cur) op.blockId) }
  | [] => rfl
  | b :: rest => by
    have hne1 : op.constructionPattern ≠ "DIRECT_EXEC" := by rw [hsb]; decide
    have hne2 : op.constructionPattern ≠ "SP_EXECUTESQL" := by rw [hsb]; decide
    have hne3 : op.constructionPattern ≠ "EXEC_STATEMENT" := by rw [hsb]; decide
    have hstep : linkDynLoop op (b :: rest) =
        linkDynLoop
          (if sbBlockCond op b then { op with blockId := some b.id } else op) rest := by
      simp only [linkDynLoop, hne1, hne2, hne3, hsb]
      simp
    rw [hstep, List.foldl_cons]
    by_cases hc : sbBlockCond op b = true
    · rw [if_pos hc]
      rw [linkDynLoop_sb { op with blockId := some b.id } hsb rest]
      rw [if_pos hc]
      exact rfl
    · rw [if_neg hc]
      rw [linkDynLoop_sb op hsb rest]
      rw [if_neg hc]

theorem linkDynLoop_marker (op : DynamicSqlOp)
    (hsb : op.constructionPattern ≠ "STRING_BUILDING") :
    ∀ blocks : List LogicalBlock,
      linkDynLoop op blocks =
        match blocks.find? (dynMarkerCond op) with
        | some b => { op with blockId := some b.id }
        | none => op
  | [] => rfl
  | b :: rest => by
    by_cases h1 : op.constructionPattern = "DIRECT_EXEC"
    · by_cases hx : hasSub "EXEC(".data (upStr b.codeText).data = true
      · simp [linkDynLoop, List.find?, dynMarkerCond, h1, hx]
      · simp [linkDynLoop, List.find?, dynMarkerCond, h1, hx,
          linkDynLoop_marker op hsb rest]
    · by_cases h2 : op.constructionPattern = "SP_EXECUTESQL"
      · by_cases hx : hasSub "SP_EXECUTESQL".data (upStr b.codeText).data = true
        · simp [linkDynLoop, List.find?, dynMarkerCond, h1, h2, hx]
        · simp [linkDynLoop, List.find?, dynMarkerCond, h1, h2, hx,
            linkDynLoop_marker op hsb rest]
      · by_cases h3 : op.constructionPattern = "EXEC_STATEMENT"
        · by_cases hx : (hasSub "EXEC ".data (upStr b.codeText).data ||
              hasSub "EXECUTE ".data (upStr b.codeText).data) = true
          · simp [linkDynLoop, List.find?, dynMarkerCond, h1, h2, h3, hx]
          · simp [linkDynLoop, List.find?, dynMarkerCond, h1, h2, h3, hx,
              linkDynLoop_marker op hsb rest]
        · simp [linkDynLoop, List.find?, dynMarkerCond, h1, h2, h3, hsb,
            linkDynLoop_marker op hsb rest]

/-- C3 (amended): the linking post-pass never raises and assigns, for each
table reference, the first block in the analyzer's block-list order whose
code text contains the table name (word-boundary, case-insensitive) and
the operation keyword (substring of the uppercased text) — not the
smallest such block; when no block matches, the block id keeps its prior
(null) value.  For dynamic SQL operations the three marker patterns also
take the first matching block, while the `STRING_BUILDING` pattern keeps
the last matching block (its loop does not break). -/
theorem link_refs_first_match_total (blocks : List LogicalBlock)
    (refs : List TableRef) (ops : List DynamicSqlOp) :
    linkReferencesToBlocks blocks refs =
      refs.map (fun r =>
        match blocks.find? (refBlockMatch r) with
        | some b => { r with blockId := some b.id }
        | none => r) ∧
    linkDynamicSqlToBlocks blocks ops =
      ops.map (fun op =>
        if op.constructionPattern = "STRING_BUILDING" then
          { op with blockId := (blocks.foldl
              (fun cur b => if sbBlockCond op b then some b.id else cur) op.blockId) }
        else
          match blocks.find? (dynMarkerCond op) with
          | some b => { op with blockId := some b.id }
          | none => op) := by
  constructor
  · exact List.map_congr_left fun r _ => linkRefLoop_first_match r blocks
  · refine List.map_congr_left fun op _ => ?_
    by_cases hsb : op.constructionPattern = "STRING_BUILDING"
    · rw [if_pos hsb]
      exact linkDynLoop_sb op hsb blocks
    · rw [if_neg hsb]
      exact linkDynLoop_marker op hsb blocks

/-- First element of a block list minimizing the line-range size (the
claim's "smallest block"; Python `min` keeps the first minimum). -/
def minBySizeBlock : List LogicalBlock → Option LogicalBlock
  | [] => none
  | b :: rest =>
    some (rest.foldl
      (fun acc c => if c.lineHi - c.lineLo < acc.lineHi - acc.lineLo then c else acc) b)

/-- The block id demanded by the claim: the smallest block whose text
matches the reference. -/
def smallestMatchingBlock (blocks : List LogicalBlock) (r : TableRef) :
    Option String :=
  (minBySizeBlock (blocks.filter (refBlockMatch r))).map (·.id)

/-- A large enclosing block whose text contains `T` and `SELECT`. -/
def linkBlockBig : LogicalBlock :=
  { id := "block_0", btype := "PROCEDURE_BODY", lineLo := 0, lineHi := 10,
    parentBlock := none,
    codeText := "IF x > 0 BEGIN SELECT * FROM T WHERE Id = 1 END" }

/-- A small inner block whose text also contains `T` and `SELECT`. -/
def linkBlockSmall : LogicalBlock :=
  { id := "block_1", btype := "BEGIN_END", lineLo := 2, lineHi := 3,
    parentBlock := none, codeText := "SELECT * FROM T" }

/-- A reference to table `T` with operation `SELECT`, not yet linked. -/
def linkRefT : TableRef :=
  { table := "T", operation := "SELECT", columns := [], blockId := none }

/-- C3 (counterexample): with a large matching block listed before a small
matching block, the pass links the reference to the large block
(`block_0`), while the smallest matching block is `block_1` — the claimed
"smallest block" rule does not hold; the first block in list order wins. -/
theorem link_ref_not_smallest :
    linkReferencesToBlocks [linkBlockBig, linkBlockSmall] [linkRefT] =
      [{ linkRefT with blockId := some "block_0" }] ∧
    smallestMatchingBlock [linkBlockBig, linkBlockSmall] linkRefT =
      some "block_1" := ⟨rfl, rfl⟩

end SqlParser

namespace SqlParser

/-! ## StructureAnalyzer error handling
(`StructureAnalyzer._identify_error_handling`) -/

/-- Match `W1\s+W2` at the head of `s` (case-insensitive): the match
length.  The greedy `\s+` is deterministic here because the second word
never starts with whitespace. -/
def matchKw2At (w1 w2 s : List Char) : Option Nat :=
  if beginsWithCI w1 s then
    let rest := s.drop w1.length
    let k := wsRun rest
    if k ≠ 0 && beginsWithCI w2 (rest.drop k) then
      some (w1.length + k + w2.length)
    else none
  else none

/-- `re.search` for `W1\s+W2`: start and end position of the first match
(positions counted from `i`, the index of the scan head). -/
def findKw2 (w1 w2 : List Char) : List Char → Nat → Option (Nat × Nat)
  | [], _ => none
  | c :: cs, i =>
    match matchKw2At w1 w2 (c :: cs) with
    | some len => some (i, i + len)
    | none => findKw2 w1 w2 cs (i + 1)

/-- `re.finditer` for `W1\s+W2`: all non-overlapping matches; `skip`
counts characters of the previous match still to be stepped over. -/
def iterKw2 (w1 w2 : List Char) : List Char → Nat → Nat → List (Nat × Nat)
  | [], _, _ => []
  | _ :: cs, i, Nat.succ k => iterKw2 w1 w2 cs (i + 1) k
  | c :: cs, i, 0 =>
    match matchKw2At w1 w2 (c :: cs) with
    | some len => (i, i + len) :: iterKw2 w1 w2 cs (i + 1) (len - 1)
    | none => iterKw2 w1 w2 cs (i + 1) 0

/-- A block record of the error-handling pass (the fields the pass
computes; ids and comment extraction of `_create_block` are orthogonal to
which blocks exist). -/
structure EHBlock where
  btype : String
  startLine : Nat
  endLine : Nat
  codeText : String
deriving Repr, DecidableEq

/-- The body of `_identify_error_handling` for one `BEGIN TRY` match at
position `tryStart`: emit the TRY block when `END TRY` follows, then test
the `BEGIN CATCH` proximity guard
`catch_start_match.start() + try_end_pos - try_start_pos < 10` exactly as
written in the source. -/
def ehBlocksForTry (sql : List Char) (tryStart : Nat) : List EHBlock :=
  match findKw2 "END".data "TRY".data (sql.drop tryStart) 0 with
  | none => []
  | some (_, endRel) =>
    let tryEndPos := tryStart + endRel
    let tryStartLine := nlCount (sql.take tryStart)
    let tryEndLine := tryStartLine + nlCount ((sql.drop tryStart).take endRel)
    { btype := "TRY", startLine := tryStartLine, endLine := tryEndLine,
      codeText := ⟨(sql.drop tryStart).take endRel⟩ } ::
    (match findKw2 "BEGIN".data "CATCH".data (sql.drop tryEndPos) 0 with
     | none => []
     | some (catchRel, _) =>
       if catchRel + tryEndPos - tryStart < 10 then
         let catchStartPos := tryEndPos + catchRel
         let catchStartLine := tryEndLine + nlCount ((sql.drop tryEndPos).take catchRel)
         match findKw2 "END".data "CATCH".data (sql.drop catchStartPos) 0 with
         | none => []
         | some (_, endCatchRel) =>
           [{ btype := "CATCH", startLine := catchStartLine,
              endLine := catchStartLine +
                nlCount ((sql.drop catchStartPos).take endCatchRel),
              codeText := ⟨(sql.drop catchStartPos).take endCatchRel⟩ }]
       else [])

/-- `_identify_error_handling`: the blocks appended for each `BEGIN TRY`
occurrence, in match order. -/
def identifyErrorHandling (sql : List Char) : List EHBlock :=
  (iterKw2 "BEGIN".data "TRY".data sql 0 0).foldr
    (fun m acc => ehBlocksForTry sql m.1 ++ acc) []

theorem mem_foldr_append {α β : Type} (f : α → List β) (x : β) :
    ∀ l : List α, x ∈ l.foldr (fun m acc => f m ++ acc) [] →
      ∃ m ∈ l, x ∈ f m
  | [], h => by cases h
  | a :: l, h => by
    rcases List.mem_append.mp h with hx | hx
    · exact ⟨a, List.mem_cons_self a l, hx⟩
    · obtain ⟨m, hm, hxm⟩ := mem_foldr_append f x l hx
      exact ⟨m, List.mem_cons_of_mem a hm, hxm⟩

theorem iterKw2_sound (w1 w2 full : List Char) :
    ∀ (rest : List Char) (i skip : Nat), rest = full.drop i →
      ∀ pe ∈ iterKw2 w1 w2 rest i skip,
        matchKw2At w1 w2 (full.drop pe.1) = some (pe.2 - pe.1)
  | [], _, _, _, _, h => by cases h
  | c :: cs, i, Nat.succ k, hrest, pe, h => by
    have hcs : cs = full.drop (i + 1) := by
      have := congrArg List.tail hrest
      simpa [List.tail_drop] using this
    exact iterKw2_sound w1 w2 full cs (i + 1) k hcs pe h
  | c :: cs, i, 0, hrest, pe, h => by
    have hcs : cs = full.drop (i + 1) := by
      have := congrArg List.tail hrest
      simpa [List.tail_drop] using this
    simp only [iterKw2] at h
    cases hm : matchKw2At w1 w2 (c :: cs) with
    | none =>
      rw [hm] at h
      exact iterKw2_sound w1 w2 full cs (i + 1) 0 hcs pe h
    | some len =>
      rw [hm] at h
      rcases List.mem_cons.mp h with rfl | hmem
      · rw [← hrest, hm]
        simp
      · exact iterKw2_sound w1 w2 full cs (i + 1) (len - 1) hcs pe hmem

theorem findKw2_sound (w1 w2 : List Char) :
    ∀ (s : List Char) (i st en : Nat), findKw2 w1 w2 s i = some (st, en) →
      i ≤ st ∧ matchKw2At w1 w2 (s.drop (st - i)) = some (en - st)
  | [], _, _, _, h => by cases h
  | c :: cs, i, st, en, h => by
    simp only [findKw2] at h
    cases hm : matchKw2At w1 w2 (c :: cs) with
    | some len =>
      rw [hm] at h
      have h2 := Option.some.inj h
      have hst : st = i := (Prod.mk.injEq _ _ _ _ ▸ h2).1.symm
      have hen : en = i + len := (Prod.mk.injEq _ _ _ _ ▸ h2).2.symm
      subst hst; subst hen
      simpa using hm
    | none =>
      rw [hm] at h
      obtain ⟨h1, h2⟩ := findKw2_sound w1 w2 cs (i + 1) st en h
      refine ⟨by omega, ?_⟩
      have : st - i = (st - (i + 1)) + 1 := by omega
      rw [this]
      simpa using h2

theorem matchKw2At_len_ge (w1 w2 s : List Char) (len : Nat)
    (h : matchKw2At w1 w2 s = some len) :
    w1.length + 1 + w2.length ≤ len := by
  simp only [matchKw2At] at h
  by_cases h1 : beginsWithCI w1 s = true
  · rw [if_pos h1] at h
    by_cases h2 : (decide (wsRun (s.drop w1.length) ≠ 0) &&
        beginsWithCI w2 ((s.drop w1.length).drop (wsRun (s.drop w1.length)))) = true
    · rw [if_pos h2] at h
      have hkne : wsRun (s.drop w1.length) ≠ 0 := by
        intro hz
        rw [hz] at h2
        simp at h2
      have := Option.some.inj h
      omega
    · rw [if_neg h2] at h
      cases h
  · rw [if_neg h1] at h
    cases h

end SqlParser

namespace SqlParser

theorem end_try_not_early (slice : List Char)
    (hb : beginsWithCI "BEGIN".data slice = true)
    (s len : Nat)
    (hm : matchKw2At "END".data "TRY".data (slice.drop s) = some len) :
    3 ≤ s := by
  have hE : beginsWithCI "END".data (slice.drop s) = true := by
    simp only [matchKw2At] at hm
    by_cases h1 : beginsWithCI "END".data (slice.drop s) = true
    · exact h1
    · rw [if_neg h1] at hm; cases hm
  by_contra hlt
  push_neg at hlt
  interval_cases s <;>
    rcases slice with _ | ⟨c0, _ | ⟨c1, _ | ⟨c2, _ | ⟨c3, _ | ⟨c4, rest⟩⟩⟩⟩⟩ <;>
      simp_all [beginsWithCI, beginsWith, upChars, List.take, List.drop] <;>
      first
      | exact absurd (hb.1.trans hE.1.symm) (by decide)
      | exact absurd (hb.2.2.1.trans hE.2.1.symm) (by decide)
      | exact absurd (hb.2.2.1.trans hE.1.symm) (by decide)

/-- C4: on an input with `BEGIN TRY ... END TRY` followed by a single
space and `BEGIN CATCH ... END CATCH`, the error-handling pass emits only
the TRY block and no CATCH block; in fact no input ever yields a CATCH
block, because the proximity guard compares the catch offset PLUS the
whole try-span length against 10, and the try span is always at least 10
characters long — the guard can never hold, contradicting both the inline
comment ("Ensure it's close to the END TRY") and the claim. -/
theorem try_catch_pass_never_emits_catch :
    (identifyErrorHandling
        "BEGIN TRY SELECT 1 END TRY BEGIN CATCH SELECT 2 END CATCH".data).map
      (·.btype) = ["TRY"] ∧
    ∀ sql : List Char, ∀ blk ∈ identifyErrorHandling sql, blk.btype ≠ "CATCH" := by
  constructor
  · rfl
  · intro sql blk hmem
    simp only [identifyErrorHandling] at hmem
    obtain ⟨m, hmIter, hblk⟩ := mem_foldr_append _ blk _ hmem
    have hbegin := iterKw2_sound "BEGIN".data "TRY".data sql sql 0 0 (by simp) m hmIter
    have hbw : beginsWithCI "BEGIN".data (sql.drop m.1) = true := by
      simp only [matchKw2At] at hbegin
      by_cases h1 : beginsWithCI "BEGIN".data (sql.drop m.1) = true
      · exact h1
      · rw [if_neg h1] at hbegin; cases hbegin
    simp only [ehBlocksForTry] at hblk
    cases hET : findKw2 "END".data "TRY".data (sql.drop m.1) 0 with
    | none => rw [hET] at hblk; cases hblk
    | some se =>
      obtain ⟨st, en⟩ := se
      simp only [hET] at hblk
      obtain ⟨-, hmat⟩ := findKw2_sound "END".data "TRY".data (sql.drop m.1) 0 st en hET
      rw [Nat.sub_zero] at hmat
      have hst3 : 3 ≤ st := end_try_not_early (sql.drop m.1) hbw st (en - st) hmat
      have hlen : 7 ≤ en - st := by
        have := matchKw2At_len_ge "END".data "TRY".data _ _ hmat
        simpa using this
      have hen10 : 10 ≤ en := by omega
      rcases List.mem_cons.mp hblk with rfl | hrest
      · simp
      · cases hBC : findKw2 "BEGIN".data "CATCH".data (sql.drop (m.1 + en)) 0 with
        | none => simp only [hBC] at hrest; cases hrest
        | some ce =>
          obtain ⟨cst, cen⟩ := ce
          simp only [hBC] at hrest
          have hguard : ¬ (cst + (m.1 + en) - m.1 < 10) := by omega
          rw [if_neg hguard] at hrest
          cases hrest

end SqlParser

namespace SqlParser

/-- C4 (witness): the universal part of the theorem applied to the
concrete failing input and its emitted TRY block. -/
theorem try_catch_pass_never_emits_catch_witness :
    ({ btype := "TRY", startLine := 0, endLine := 0,
       codeText := "BEGIN TRY SELECT 1 END TRY" } : EHBlock).btype ≠ "CATCH" :=
  try_catch_pass_never_emits_catch.2
    "BEGIN TRY SELECT 1 END TRY BEGIN CATCH SELECT 2 END CATCH".data
    { btype := "TRY", startLine := 0, endLine := 0,
      codeText := "BEGIN TRY SELECT 1 END TRY" } (by decide)

end SqlParser

namespace SqlParser

/-! ## OperationDetector statement dispatch and temp-structure extraction
(`sql_parser_enhanced/sql_operations.py`)

sqlparse's token trees nest arbitrarily, but every function translated
below inspects at most one level of grouping (only
`_is_dynamic_sql` looks inside a grouped token, and only at its direct
children's `is_keyword` and `value`), so subtokens carry just those two
fields. -/

/-- A direct child of a grouped sqlparse token, with the fields the
detector reads. -/
structure SubTok where
  value : String
  isKeyword : Bool
deriving Repr, DecidableEq

/-- A top-level sqlparse token: `ttypeNone` is Python's
`token.ttype is None`, `isGroup` is `hasattr(token, 'tokens')`. -/
structure SqlTok where
  value : String
  isKeyword : Bool
  isWhitespace : Bool
  ttypeNone : Bool
  isGroup : Bool
  subtokens : List SubTok
deriving Repr, DecidableEq

/-- A parsed statement: its full text and its top-level tokens. -/
structure SqlStatement where
  value : String
  tokens : List SqlTok
deriving Repr, DecidableEq

/-- `OperationDetector._get_statement_type`: the first keyword token whose
uppercase value is a DML verb. -/
def getStatementType (st : SqlStatement) : Option String :=
  st.tokens.findSome? (fun t =>
    if t.isKeyword &&
        ["SELECT", "INSERT", "UPDATE", "DELETE", "MERGE"].contains (upStr t.value) then
      some (upStr t.value)
    else none)

/-- The `EXEC`/`EXECUTE` keyword test of `_is_dynamic_sql`. -/
def isExecKw (v : String) : Bool :=
  upStr v = "EXEC" || upStr v = "EXECUTE"

/-- First loop of `_is_dynamic_sql`: an `EXEC`/`EXECUTE` keyword at the
top level or directly inside a grouped token. -/
def isDynamicSqlLoopA : List SqlTok → Bool
  | [] => false
  | t :: rest =>
    (if t.ttypeNone && t.isGroup then
      t.subtokens.any (fun s => s.isKeyword && isExecKw s.value)
     else t.isKeyword && isExecKw t.value) || isDynamicSqlLoopA rest

/-- Second loop of `_is_dynamic_sql`: a `SET` assignment whose right-hand
side contains a SQL keyword. -/
def isDynamicSqlLoopB : List SqlTok → Bool → Bool
  | [], _ => false
  | t :: rest, setSeen =>
    if t.isKeyword && upStr t.value = "SET" then isDynamicSqlLoopB rest true
    else if setSeen && t.ttypeNone then
      if ["SELECT", "INSERT", "UPDATE", "DELETE", "FROM", "WHERE", "JOIN"].any
          (fun kw => hasSub kw.data (upStr t.value).data) then true
      else isDynamicSqlLoopB rest false
    else isDynamicSqlLoopB rest setSeen

/-- `OperationDetector._is_dynamic_sql`. -/
def isDynamicSql (st : SqlStatement) : Bool :=
  isDynamicSqlLoopA st.tokens || isDynamicSqlLoopB st.tokens false

/-- `value.strip().split('(')[0].strip()` of the CREATE-TABLE lookahead. -/
def tempNameOfTok (v : String) : String :=
  ⟨stripWs ((stripWs v.data).takeWhile (· ≠ '('))⟩

/-- The lookahead of the CREATE-TABLE branch: the first following token
with `ttype is None` that is not whitespace. -/
def firstRealTok (toks : List SqlTok) : Option SqlTok :=
  toks.find? (fun t => t.ttypeNone && !t.isWhitespace)

/-- The token loop of `_is_temp_table_creation`, with the `create_seen` /
`declare_seen` flags threaded explicitly. -/
def isTempTableCreationGo : List SqlTok → Bool → Bool → String → Bool
  | [], _, _, _ => false
  | t :: rest, createSeen, declareSeen, stVal =>
    if t.isKeyword && upStr t.value = "CREATE" then
      isTempTableCreationGo rest true declareSeen stVal
    else if t.isKeyword && upStr t.value = "DECLARE" then
      isTempTableCreationGo rest createSeen true stVal
    else if createSeen && t.isKeyword && upStr t.value = "TABLE" then
      (match firstRealTok rest with
       | some nt =>
         if (tempNameOfTok nt.value).startsWith "#" then true
         else isTempTableCreationGo rest false declareSeen stVal
       | none => isTempTableCreationGo rest false declareSeen stVal)
    else if declareSeen && t.ttypeNone && !t.isWhitespace then
      if hasSub "@".data t.value.data && hasSub "TABLE".data (upStr stVal).data then
        true
      else isTempTableCreationGo rest createSeen false stVal
    else isTempTableCreationGo rest createSeen declareSeen stVal

/-- `OperationDetector._is_temp_table_creation`. -/
def isTempTableCreation (st : SqlStatement) : Bool :=
  isTempTableCreationGo st.tokens false false st.value

/-- Search for `DECLARE\s+@(\w+)\s+TABLE` (case-insensitive): the matched
variable name with its `@` prefix. -/
def declMatchAt (s : List Char) : Option String :=
  if beginsWithCI "DECLARE".data s then
    let r1 := s.drop 7
    let k := wsRun r1
    if k = 0 then none
    else
      match r1.drop k with
      | '@' :: r2 =>
        let w := r2.takeWhile isWordChar
        if w.isEmpty then none
        else
          let r3 := r2.drop w.length
          let k2 := wsRun r3
          if k2 = 0 then none
          else if beginsWithCI "TABLE".data (r3.drop k2) then some ("@" ++ ⟨w⟩)
          else none
      | _ => none
  else none

/-- `re.search` scan for the table-variable pattern. -/
def scanDeclTableVar : List Char → Option String
  | [] => none
  | c :: cs =>
    match declMatchAt (c :: cs) with
    | some nm => some nm
    | none => scanDeclTableVar cs

/-- Search for `CREATE\s+TABLE\s+#(\w+)` (case-insensitive): the matched
temp-table name with its `#` prefix. -/
def createTempMatchAt (s : List Char) : Option String :=
  if beginsWithCI "CREATE".data s then
    let r1 := s.drop 6
    let k := wsRun r1
    if k = 0 then none
    else if beginsWithCI "TABLE".data (r1.drop k) then
      let r2 := (r1.drop k).drop 5
      let k2 := wsRun r2
      if k2 = 0 then none
      else
        match r2.drop k2 with
        | '#' :: r3 =>
          let w := r3.takeWhile isWordChar
          if w.isEmpty then none else some ("#" ++ ⟨w⟩)
        | _ => none
    else none
  else none

/-- `re.search` scan for the temp-table pattern. -/
def scanCreateTemp : List Char → Option String
  | [] => none
  | c :: cs =>
    match createTempMatchAt (c :: cs) with
    | some nm => some nm
    | none => scanCreateTemp cs

/-- First match of `\(([^)]+)\)`: the content of the first parenthesised
group with a non-empty `)`-free body and a closing parenthesis. -/
def firstParenContent : List Char → Option (List Char)
  | [] => none
  | c :: cs =>
    if c = '(' then
      let content := cs.takeWhile (· ≠ ')')
      if !content.isEmpty && !(cs.drop content.length).isEmpty then some content
      else firstParenContent cs
    else firstParenContent cs

/-- Python `str.split(',')`. -/
def splitOnComma : List Char → List Char → List (List Char)
  | [], acc => [acc.reverse]
  | c :: cs, acc =>
    if c = ',' then acc.reverse :: splitOnComma cs []
    else splitOnComma cs (acc ++ [c])

/-- The per-column regex
`^\s*(\w+)\s+(\w+(?:\(\d+(?:,\d+)?\))?)` applied to one column
definition: column name and data type (with the optional length suffix
when it matches in full). -/
def parseColDef (cs : List Char) : Option (String × String) :=
  let s := (stripWs cs).dropWhile isWsChar
  let w1 := s.takeWhile isWordChar
  if w1.isEmpty then none
  else
    let r1 := s.drop w1.length
    let k := wsRun r1
    if k = 0 then none
    else
      let r2 := r1.drop k
      let w2 := r2.takeWhile isWordChar
      if w2.isEmpty then none
      else
        let r3 := r2.drop w2.length
        match r3 with
        | '(' :: r4 =>
          let d1 := r4.takeWhile Char.isDigit
          if d1.isEmpty then some (⟨w1⟩, ⟨w2⟩)
          else
            match r4.drop d1.length with
            | ')' :: _ => some (⟨w1⟩, ⟨w2 ++ '(' :: (d1 ++ [')'])⟩)
            | ',' :: r6 =>
              let d2 := r6.takeWhile Char.isDigit
              if d2.isEmpty then some (⟨w1⟩, ⟨w2⟩)
              else
                match r6.drop d2.length with
                | ')' :: _ => some (⟨w1⟩, ⟨w2 ++ '(' :: (d1 ++ ',' :: (d2 ++ [')']))⟩)
                | _ => some (⟨w1⟩, ⟨w2⟩)
            | _ => some (⟨w1⟩, ⟨w2⟩)
        | _ => some (⟨w1⟩, ⟨w2⟩)

/-- `OperationDetector._extract_temp_table` (the temp structure built from
a statement; the detector appends it only when the extracted name is
non-empty). -/
def extractTempTable (st : SqlStatement) : TempStructure :=
  let isTableVar := hasSub "DECLARE".data (upStr st.value).data
  let name :=
    if isTableVar then (scanDeclTableVar st.value.data).getD ""
    else (scanCreateTemp st.value.data).getD ""
  { name := name
    ttype := if isTableVar then "TABLE_VARIABLE" else "LOCAL_TEMP"
    definition := ⟨st.value.data.take 200⟩ ++
      (if 200 < st.value.data.length then "..." else "")
    columns :=
      match firstParenContent st.value.data with
      | none => []
      | some content => (splitOnComma content []).filterMap parseColDef
    populatedFrom := []
    usedIn := []
    transformations := [] }

/-- The `elif` dispatch of `_analyze_statement`, restricted to its effect
on `self.temp_structures` (the DML and dynamic-SQL branches never touch
it). -/
def dispatchTemp (acc : List TempStructure) (st : SqlStatement) :
    List TempStructure :=
  if (match getStatementType st with
      | some ty => ["SELECT", "INSERT", "UPDATE", "DELETE"].contains ty
      | none => false) then acc
  else if isDynamicSql st then acc
  else if isTempTableCreation st then
    if (extractTempTable st).name = "" then acc else acc ++ [extractTempTable st]
  else acc

/-- The temp structures accumulated by `detect_table_references` over the
parsed statements. -/
def detectTempStructures (stmts : List SqlStatement) : List TempStructure :=
  stmts.foldl dispatchTemp []

end SqlParser

namespace SqlParser

/-- `OperationDetector._find_temp_structure_index` (`None` for -1). -/
def findTempIdx (temps : List TempStructure) (name : String) : Option Nat :=
  (temps.enum.find? (fun p => p.2.name = name)).map (·.1)

/-- In-place update of the element at an index (Python's mutation of
`self.temp_structures[temp_idx]`). -/
def modifyAt {α : Type} (f : α → α) : List α → Nat → List α
  | [], _ => []
  | x :: xs, 0 => f x :: xs
  | x :: xs, Nat.succ n => x :: modifyAt f xs n

/-- `', '.join(columns)`. -/
def joinCommaSpace : List String → String
  | [] => ""
  | [x] => x
  | x :: y :: rest => x ++ ", " ++ joinCommaSpace (y :: rest)

/-- One iteration of `_analyze_temp_table_operations` for one table
reference; `tempNames` stands for
`list(self.temp_tables) + list(self.table_variables)`. -/
def tempOpStep (refs : List TableRef) (tempNames : List String)
    (temps : List TempStructure) (r : TableRef) : List TempStructure :=
  if tempNames.contains r.table then
    match findTempIdx temps r.table with
    | none => temps
    | some idx =>
      if r.operation = "INSERT" then
        let toPop : TableRef → TempPopulation := fun sref =>
          { tableReference := sref.table
            operation := "SELECT_INTO_TEMP"
            blockId := sref.blockId }
        let newPops := (refs.filter (fun ref2 =>
            ref2.operation = "SELECT" && ref2.blockId = r.blockId)).map toPop
        modifyAt (fun t => { t with populatedFrom := t.populatedFrom ++ newPops })
          temps idx
      else if r.operation = "SELECT" then
        let newUse : TempUsage :=
          { operation := "SELECT_FROM_TEMP", blockId := r.blockId, businessPurpose := "" }
        modifyAt (fun t => { t with usedIn := t.usedIn ++ [newUse] }) temps idx
      else if r.operation = "UPDATE" then
        let newTr : TempTransformation :=
          { ttype := "UPDATE", blockId := r.blockId,
            description := "Update columns: " ++ joinCommaSpace r.columns }
        modifyAt (fun t => { t with transformations := t.transformations ++ [newTr] })
          temps idx
      else if r.operation = "DELETE" then
        let newTr : TempTransformation :=
          { ttype := "FILTER", blockId := r.blockId, description := "Delete/filter rows" }
        modifyAt (fun t => { t with transformations := t.transformations ++ [newTr] })
          temps idx
      else temps
  else if r.operation = "INSERT" then
    tempNames.foldl (fun ts nm =>
      match findTempIdx ts nm with
      | none => ts
      | some idx =>
        if refs.any (fun ref2 => ref2.table = nm && ref2.operation = "SELECT" &&
            ref2.blockId = r.blockId) then
          let newUse : TempUsage :=
            { operation := "INSERT_INTO_" ++ r.table, blockId := r.blockId,
              businessPurpose := "" }
          modifyAt (fun t => { t with usedIn := t.usedIn ++ [newUse] }) ts idx
        else ts) temps
  else temps

/-- `OperationDetector._analyze_temp_table_operations` (the body of
`analyze_temp_tables`): it only modifies entries of the existing temp
structure list, never adds one. -/
def analyzeTempTableOperations (refs : List TableRef) (tempNames : List String)
    (temps : List TempStructure) : List TempStructure :=
  refs.foldl (tempOpStep refs tempNames) temps

theorem foldl_fixed {α β : Type} (g : α → β → α) (x : α) (hg : ∀ y, g x y = x) :
    ∀ l : List β, l.foldl g x = x
  | [] => rfl
  | y :: l => by rw [List.foldl_cons, hg y]; exact foldl_fixed g x hg l

theorem tempOpStep_nil (refs : List TableRef) (tempNames : List String)
    (r : TableRef) : tempOpStep refs tempNames [] r = [] := by
  unfold tempOpStep
  by_cases h1 : tempNames.contains r.table = true
  · rw [if_pos h1]
    simp [findTempIdx]
  · rw [if_neg h1]
    by_cases h2 : r.operation = "INSERT"
    · rw [if_pos h2]
      exact foldl_fixed _ [] (fun nm => by simp [findTempIdx]) tempNames
    · rw [if_neg h2]

theorem analyzeTempTableOperations_nil (refs : List TableRef)
    (tempNames : List String) :
    analyzeTempTableOperations refs tempNames [] = [] :=
  foldl_fixed _ [] (tempOpStep_nil refs tempNames) refs

end SqlParser

namespace SqlParser

theorem beginsWith_map (f : Char → Char) :
    ∀ p s : List Char, beginsWith p s = true → beginsWith (p.map f) (s.map f) = true
  | [], _, _ => rfl
  | _ :: _, [], h => by cases h
  | p :: ps, c :: cs, h => by
    simp only [beginsWith, Bool.and_eq_true, decide_eq_true_eq] at h
    simp only [List.map_cons, beginsWith, Bool.and_eq_true, decide_eq_true_eq]
    exact ⟨by rw [h.1], beginsWith_map f ps cs h.2⟩

theorem hasSub_map (f : Char → Char) (p : List Char) :
    ∀ s : List Char, hasSub p s = true → hasSub (p.map f) (s.map f) = true
  | [], h => by
    simp only [hasSub, List.isEmpty_iff] at h
    simp [hasSub, h]
  | c :: cs, h => by
    simp only [hasSub, Bool.or_eq_true] at h
    rcases h with h | h
    · simp only [List.map_cons, hasSub, Bool.or_eq_true]
      exact Or.inl (by simpa using beginsWith_map f p (c :: cs) h)
    · simp only [List.map_cons, hasSub, Bool.or_eq_true]
      exact Or.inr (hasSub_map f p cs h)

/-- Substring containment is preserved by uppercasing. -/
theorem hasSub_up (p s : List Char) (h : hasSub p s = true) :
    hasSub (upChars p) (upChars s) = true :=
  hasSub_map Char.toUpper p s h

theorem isTempTableCreationGo_false :
    ∀ (toks : List SqlTok) (v : String),
      (∀ t ∈ toks, upStr t.value ≠ "CREATE" ∧ upStr t.value ≠ "DECLARE") →
      isTempTableCreationGo toks false false v = false
  | [], _, _ => rfl
  | t :: rest, v, h => by
    obtain ⟨h1, h2⟩ := h t (List.mem_cons_self t rest)
    have hrest := fun t' ht' => h t' (List.mem_cons_of_mem t ht')
    simp only [isTempTableCreationGo]
    simp [h1, h2, isTempTableCreationGo_false rest v hrest]

theorem dispatchTemp_nil (st : SqlStatement)
    (h : isTempTableCreation st = false) : dispatchTemp [] st = [] := by
  unfold dispatchTemp
  by_cases hd : (match getStatementType st with
      | some ty => ["SELECT", "INSERT", "UPDATE", "DELETE"].contains ty
      | none => false) = true
  · rw [if_pos hd]
  · rw [if_neg hd]
    by_cases hdyn : isDynamicSql st = true
    · rw [if_pos hdyn]
    · rw [if_neg hdyn, if_neg (by simp [h])]

theorem detectTempStructures_eq_nil (stmts : List SqlStatement)
    (h : ∀ st ∈ stmts, isTempTableCreation st = false) :
    detectTempStructures stmts = [] := by
  unfold detectTempStructures
  induction stmts with
  | nil => rfl
  | cons st rest ih =>
    rw [List.foldl_cons, dispatchTemp_nil st (h st (List.mem_cons_self st rest))]
    exact ih (fun st' h' => h st' (List.mem_cons_of_mem st h'))

theorem flowsForTargets_interm (tf : String → List PyVal)
    (blocks : List LogicalBlock) (bid : String) (sources : List TableRef) :
    ∀ (ts : List TableRef) (n : Nat) (fs : List DataFlow),
      flowsForTargets tf blocks bid sources ts n = some fs →
      ∀ fl ∈ fs, fl.intermediateEntities = []
  | [], n, fs, h => by
    simp only [flowsForTargets, Option.some.injEq] at h
    subst h; intro fl hfl; cases hfl
  | t :: ts, n, fs, h => by
    simp only [flowsForTargets] at h
    cases hfind : blocks.find? (fun blk => blk.id = bid) with
    | none => rw [hfind] at h; cases h
    | some blk =>
      rw [hfind] at h
      cases hrec : flowsForTargets tf blocks bid sources ts (n + 1) with
      | none => rw [hrec] at h; cases h
      | some fs2 =>
        rw [hrec] at h
        have h2 := Option.some.inj h
        subst h2
        intro fl hfl
        rcases List.mem_cons.mp hfl with rfl | hmem
        · rfl
        · exact flowsForTargets_interm tf blocks bid sources ts (n + 1) fs2 hrec fl hmem

theorem tableFlowsFromGroups_interm (tf : String → List PyVal)
    (blocks : List LogicalBlock) :
    ∀ (groups : List (String × List TableRef)) (n : Nat) (fs : List DataFlow),
      tableFlowsFromGroups tf blocks groups n = some fs →
      ∀ fl ∈ fs, fl.intermediateEntities = []
  | [], n, fs, h => by
    simp only [tableFlowsFromGroups, Option.some.injEq] at h
    subst h; intro fl hfl; cases hfl
  | (bid, rs) :: rest, n, fs, h => by
    simp only [tableFlowsFromGroups] at h
    by_cases hguard :
        (rs.filter (fun r => r.operation = "INSERT" || r.operation = "UPDATE")).isEmpty ||
        (rs.filter (fun r => r.operation = "SELECT")).isEmpty
    · rw [if_pos hguard] at h
      exact tableFlowsFromGroups_interm tf blocks rest n fs h
    · rw [if_neg hguard] at h
      cases h1 : flowsForTargets tf blocks bid
          (rs.filter (fun r => r.operation = "SELECT"))
          (rs.filter (fun r => r.operation = "INSERT" || r.operation = "UPDATE")) n with
      | none => rw [h1] at h; cases h
      | some fs1 =>
        rw [h1] at h
        have h' : (match tableFlowsFromGroups tf blocks rest (n + fs1.length) with
            | none => none
            | some more => some (fs1 ++ more)) = some fs := h
        cases h2 : tableFlowsFromGroups tf blocks rest (n + fs1.length) with
        | none => rw [h2] at h'; cases h'
        | some fs2 =>
          rw [h2] at h'
          have h3 := Option.some.inj h'
          subst h3
          intro fl hfl
          rcases List.mem_append.mp hfl with hmem | hmem
          · exact flowsForTargets_interm tf blocks bid _ _ n fs1 h1 fl hmem
          · exact tableFlowsFromGroups_interm tf blocks rest (n + fs1.length) fs2 h2 fl hmem

theorem varFlowsForRefs_interm (blocks : List LogicalBlock) (a : VarAssignment) :
    ∀ (rs : List TableRef) (n : Nat),
      ∀ fl ∈ varFlowsForRefs blocks a rs n, fl.intermediateEntities = [a.varName]
  | [], n, fl, hfl => by cases hfl
  | r :: rs, n, fl, hfl => by
    simp only [varFlowsForRefs] at hfl
    cases hbid : r.blockId with
    | none =>
      simp only [hbid] at hfl
      exact varFlowsForRefs_interm blocks a rs n fl hfl
    | some bid =>
      simp only [hbid] at hfl
      by_cases hemp : bid = ""
      · rw [if_pos hemp] at hfl
        exact varFlowsForRefs_interm blocks a rs n fl hfl
      · rw [if_neg hemp] at hfl
        cases hfind : blocks.find? (fun blk => blk.id = bid) with
        | none =>
          simp only [hfind] at hfl
          exact varFlowsForRefs_interm blocks a rs n fl hfl
        | some blk =>
          simp only [hfind] at hfl
          by_cases hin : hasSub a.varName.data blk.codeText.data = true
          · rw [if_pos hin] at hfl
            rcases List.mem_cons.mp hfl with rfl | hmem
            · rfl
            · exact varFlowsForRefs_interm blocks a rs (n + 1) fl hmem
          · rw [if_neg hin] at hfl
            exact varFlowsForRefs_interm blocks a rs n fl hfl

theorem analyzeVariableFlows_interm (blocks : List LogicalBlock)
    (refs : List TableRef) :
    ∀ (va : List VarAssignment) (n : Nat),
      ∀ fl ∈ analyzeVariableFlows blocks refs va n,
        ∃ a ∈ va, fl.intermediateEntities = [a.varName]
  | [], n, fl, hfl => by cases hfl
  | a :: rest, n, fl, hfl => by
    simp only [analyzeVariableFlows] at hfl
    by_cases hemp : a.sourceEntities.isEmpty
    · rw [if_pos hemp] at hfl
      obtain ⟨a2, ha2, hi⟩ := analyzeVariableFlows_interm blocks refs rest n fl hfl
      exact ⟨a2, List.mem_cons_of_mem a ha2, hi⟩
    · rw [if_neg hemp] at hfl
      rcases List.mem_append.mp hfl with hmem | hmem
      · exact ⟨a, List.mem_cons_self a rest,
          varFlowsForRefs_interm blocks a refs n fl hmem⟩
      · obtain ⟨a2, ha2, hi⟩ := analyzeVariableFlows_interm blocks refs rest _ fl hmem
        exact ⟨a2, List.mem_cons_of_mem a ha2, hi⟩

/-- The temp-table-flow scenario input of the spec. -/
def c2sql : String :=
  "SELECT * INTO #Temp FROM Source; INSERT INTO Target SELECT * FROM #Temp;"

/-- C2: for the scenario input, no statement of any tokenization of the
text can satisfy `_is_temp_table_creation` (the text contains neither
`CREATE` nor `DECLARE`), so the detector's temp-structure list stays empty
through `analyze_temp_tables`, no `TempStructure` named `#Temp` exists,
and `analyze_data_flows` emits no flow with `intermediateEntities`
equal to `["#Temp"]` — table flows have empty intermediates and
variable flows carry an `@`-variable.  This contradicts the claimed
`TempStructure` and `Source → #Temp → Target` flow. -/
theorem select_into_temp_scenario_fails
    (stmts : List SqlStatement) (refs : List TableRef) (tempNames : List String)
    (tf : String → List PyVal) (va : List VarAssignment)
    (blocks : List LogicalBlock) (flows : List DataFlow)
    (htok : ∀ st ∈ stmts, ∀ t ∈ st.tokens, hasSub t.value.data c2sql.data = true)
    (hva : ∀ a ∈ va, a.varName.data.head? = some '@')
    (hflows : analyzeDataFlows tf va blocks refs
        (analyzeTempTableOperations refs tempNames (detectTempStructures stmts)) =
      some flows) :
    analyzeTempTableOperations refs tempNames (detectTempStructures stmts) = [] ∧
    ∀ fl ∈ flows, fl.intermediateEntities ≠ ["#Temp"] := by
  have hnoc : ∀ st ∈ stmts, isTempTableCreation st = false := by
    intro st hst
    apply isTempTableCreationGo_false
    intro t ht
    constructor
    · intro hq
      have hsubU := hasSub_up _ _ (htok st hst t ht)
      have hdata : upChars t.value.data = "CREATE".data := congrArg String.data hq
      rw [hdata] at hsubU
      exact absurd hsubU (by decide)
    · intro hq
      have hsubU := hasSub_up _ _ (htok st hst t ht)
      have hdata : upChars t.value.data = "DECLARE".data := congrArg String.data hq
      rw [hdata] at hsubU
      exact absurd hsubU (by decide)
  have hdet := detectTempStructures_eq_nil stmts hnoc
  have htemps : analyzeTempTableOperations refs tempNames
      (detectTempStructures stmts) = [] := by
    rw [hdet]
    exact analyzeTempTableOperations_nil refs tempNames
  refine ⟨htemps, ?_⟩
  rw [htemps] at hflows
  simp only [analyzeDataFlows, analyzeTableFlows] at hflows
  cases h1 : tableFlowsFromGroups tf blocks (groupRefsByBlock refs) 0 with
  | none => rw [h1] at hflows; cases hflows
  | some t1 =>
    rw [h1] at hflows
    have h2 := Option.some.inj hflows
    subst h2
    intro fl hfl
    rcases List.mem_append.mp hfl with hm12 | hm3
    · rcases List.mem_append.mp hm12 with hm1 | hm2
      · rw [tableFlowsFromGroups_interm tf blocks _ 0 t1 h1 fl hm1]
        simp
      · obtain ⟨a, ha, hia⟩ :=
          analyzeVariableFlows_interm blocks refs va t1.length fl hm2
        rw [hia]
        intro heq
        have hname : a.varName = "#Temp" := (List.cons_eq_cons.mp heq).1
        have hhead := hva a ha
        rw [hname] at hhead
        exact absurd hhead (by decide)
    · have htempnil : analyzeTempFlows ([] : List TempStructure)
          (t1.length + (analyzeVariableFlows blocks refs va t1.length).length) = [] := rfl
      rw [htempnil] at hm3
      cases hm3

end SqlParser

namespace SqlParser

/-- A simple (ungrouped) token. -/
def simpleTok (v : String) (kw ws tn : Bool) : SqlTok :=
  { value := v, isKeyword := kw, isWhitespace := ws, ttypeNone := tn,
    isGroup := false, subtokens := [] }

/-- A flat tokenization of the scenario's first statement. -/
def c2stmt1 : SqlStatement :=
  { value := "SELECT * INTO #Temp FROM Source;"
    tokens :=
      [simpleTok "SELECT" true false false, simpleTok " " false true false,
       simpleTok "*" false false false, simpleTok " " false true false,
       simpleTok "INTO" true false false, simpleTok " " false true false,
       simpleTok "#Temp" false false true, simpleTok " " false true false,
       simpleTok "FROM" true false false, simpleTok " " false true false,
       simpleTok "Source" false false true, simpleTok ";" false false false] }

/-- A flat tokenization of the scenario's second statement. -/
def c2stmt2 : SqlStatement :=
  { value := "INSERT INTO Target SELECT * FROM #Temp;"
    tokens :=
      [simpleTok "INSERT" true false false, simpleTok " " false true false,
       simpleTok "INTO" true false false, simpleTok " " false true false,
       simpleTok "Target" false false true, simpleTok " " false true false,
       simpleTok "SELECT" true false false, simpleTok " " false true false,
       simpleTok "*" false false false, simpleTok " " false true false,
       simpleTok "FROM" true false false, simpleTok " " false true false,
       simpleTok "#Temp" false false true, simpleTok ";" false false false] }

/-- C2 (witness): the theorem applied to a concrete tokenization of the
scenario input — the temp-structure list is empty, so no `TempStructure`
named `#Temp` exists. -/
theorem select_into_temp_scenario_fails_witness :
    analyzeTempTableOperations [] [] (detectTempStructures [c2stmt1, c2stmt2]) = [] :=
  (select_into_temp_scenario_fails [c2stmt1, c2stmt2] [] [] (fun _ => []) [] [] []
    (by decide) (by decide) rfl).1

end SqlParser

namespace SqlParser

/-! ## ParameterTracker (`sql_parser_enhanced/parameter_tracker.py`)

The per-occurrence helpers `_classify_parameter_usage`,
`_find_affected_entity` and `_extract_condition` only fill fields of the
occurrence records; the tracker is parametrised by them and the theorems
hold for every choice. -/

/-- A declared parameter from `metadata.parameters`. -/
structure ParamMeta where
  name : String
  dataType : String
  defaultValue : Option String
deriving Repr, DecidableEq

/-- One occurrence record built by `_find_parameter_occurrences`. -/
structure ParamOccurrence where
  blockId : Option String
  lineNumber : Nat
  usage : String
  context : String
  entity : Option String
  condition : Option String
deriving Repr, DecidableEq

/-- One entry of `analyze_parameter_usage`'s output. -/
structure ParamUsageData where
  parameterName : String
  parameterType : String
  defaultValue : Option String
  usagePattern : String
  occurrences : List ParamOccurrence
deriving Repr, DecidableEq

/-- Increment the count of a usage type, preserving first-seen order
(Python dict insertion order). -/
def bumpCount : List (String × Nat) → String → List (String × Nat)
  | [], u => [(u, 1)]
  | (k, n) :: rest, u =>
    if k = u then (k, n + 1) :: rest else (k, n) :: bumpCount rest u

/-- The usage-type counts of `_determine_usage_pattern`. -/
def usageCounts (occs : List ParamOccurrence) : List (String × Nat) :=
  occs.foldl (fun acc o => bumpCount acc o.usage) []

/-- Python `max(items, key=...)`: the first maximum in iteration order. -/
def maxByCount : List (String × Nat) → Option String
  | [] => none
  | c :: rest =>
    some ((rest.foldl (fun acc x => if acc.2 < x.2 then x else acc) c).1)

/-- `ParameterTracker._determine_usage_pattern`. -/
def determineUsagePattern (occs : List ParamOccurrence) : String :=
  match maxByCount (usageCounts occs) with
  | none => "UNUSED_PARAMETER"
  | some mc =>
    if mc.startsWith "FILTER_" then "FILTER_PARAMETER"
    else if mc.startsWith "JOIN_" then "JOIN_PARAMETER"
    else if mc.startsWith "PAGINATION_" then "PAGINATION_PARAMETER"
    else if mc = "INSERT_VALUE" || mc = "UPDATE_VALUE" then "DATA_VALUE"
    else if mc = "CONDITIONAL_CHECK" then "CONTROL_PARAMETER"
    else if mc = "DYNAMIC_SQL_PARAMETER" then "DYNAMIC_SQL_PARAMETER"
    else mc

/-- `ParameterTracker.analyze_parameter_usage`: one usage record per
declared parameter, in order, with the occurrences delivered by the
occurrence finder. -/
def analyzeParameterUsage (params : List ParamMeta)
    (occFn : String → List ParamOccurrence) : List ParamUsageData :=
  params.map (fun p =>
    { parameterName := p.name
      parameterType := p.dataType
      defaultValue := p.defaultValue
      usagePattern := determineUsagePattern (occFn p.name)
      occurrences := occFn p.name })

/-- A suggested test value. -/
structure TestValue where
  value : String
  purpose : String
  scenario : String
deriving Repr, DecidableEq

/-- One entry of `extract_test_values`' output. -/
structure TestValueEntry where
  parameterName : String
  dataType : String
  defaultValue : Option String
  usageContext : String
  conditions : List (String × Option String × String)
  suggestedTestValues : List TestValue
deriving Repr, DecidableEq

/-- The literal-mining regex `=\s*'([^']*)'|\=\s*(\d+)` of
`_generate_test_values` over one condition string; only non-empty
captures are collected (the `if value:` filter).  The source accumulates
them in a Python `set` with unordered iteration; the embedding keeps the
first-seen order. -/
def extractLiterals : List Char → List String
  | [] => []
  | c :: cs =>
    if c = '=' then
      match h : cs.drop (wsRun cs) with
      | '\'' :: r2 =>
        let q := r2.takeWhile (· ≠ '\'')
        if (r2.drop q.length).isEmpty then extractLiterals cs
        else if q.isEmpty then extractLiterals (r2.drop 1)
        else (⟨q⟩ : String) :: extractLiterals (r2.drop (q.length + 1))
      | r1 =>
        let d := r1.takeWhile Char.isDigit
        if d.isEmpty then extractLiterals cs
        else (⟨d⟩ : String) :: extractLiterals (r1.drop d.length)
    else extractLiterals cs
termination_by l => l.length
decreasing_by
  all_goals
    first
    | (simp only [List.length_cons]; omega)
    | (have hl := congrArg List.length h
       simp only [List.length_drop, List.length_cons] at hl ⊢
       omega)

/-- Python `str.strip("'")`. -/
def stripQuotes (s : String) : String :=
  ⟨((s.data.dropWhile (· = '\'')).reverse.dropWhile (· = '\'')).reverse⟩

/-- The `VARCHAR\((\d+)\)` length search over the uppercased type. -/
def varcharLen : List Char → Option Nat
  | [] => none
  | c :: cs =>
    if beginsWith "VARCHAR(".data (c :: cs) then
      let d := (cs.drop 7).takeWhile Char.isDigit
      if !d.isEmpty && beginsWith ")".data ((cs.drop 7).drop d.length) then
        some (d.foldl (fun acc ch => acc * 10 + (ch.toNat - 48)) 0)
      else varcharLen cs
    else varcharLen cs

/-- `ParameterTracker._generate_test_values`: mined literals, the declared
default, the type/usage-driven boundary values, and always one final
NULL-value candidate. -/
def generateTestValues (p : ParamUsageData) : List TestValue :=
  let paramType := upStr p.parameterType
  let literals := (p.occurrences.foldl (fun acc o =>
    match o.condition with
    | none => acc
    | some cond => (extractLiterals cond.data).foldl dedupAppend acc) [])
  let defaultVals :=
    match p.defaultValue with
    | none => []
    | some dv =>
      if dv ≠ "" && dv ≠ "NULL" && dv ≠ "null" then
        [{ value := stripQuotes dv, purpose := "DEFAULT_VALUE",
           scenario := "Default case" : TestValue }]
      else []
  let literalVals := literals.map (fun v =>
    { value := v, purpose := "LITERAL_VALUE",
      scenario := "Value from condition" : TestValue })
  let typeVals :=
    if hasSub "INT".data paramType.data || hasSub "NUMERIC".data paramType.data ||
        hasSub "DECIMAL".data paramType.data then
      if p.usagePattern = "FILTER_PARAMETER" then
        [{ value := "0", purpose := "BOUNDARY_VALUE", scenario := "Zero value" },
         { value := "-1", purpose := "NEGATIVE_VALUE", scenario := "Negative value" },
         { value := "2147483647", purpose := "EXTREME_VALUE",
           scenario := "Maximum integer value" }]
      else if p.usagePattern = "PAGINATION_PARAMETER" then
        [{ value := "0", purpose := "BOUNDARY_VALUE", scenario := "Zero page/offset" },
         { value := "1", purpose := "COMMON_VALUE", scenario := "First page" },
         { value := "100", purpose := "COMMON_VALUE", scenario := "Large page size" }]
      else []
    else if hasSub "VARCHAR".data paramType.data || hasSub "CHAR".data paramType.data ||
        hasSub "TEXT".data paramType.data then
      if p.usagePattern = "FILTER_PARAMETER" then
        [{ value := "", purpose := "BOUNDARY_VALUE", scenario := "Empty string" },
         { value := "%", purpose := "WILDCARD_VALUE", scenario := "Wildcard (all values)" }] ++
        (match varcharLen paramType.data with
         | none => []
         | some n =>
           [{ value := ⟨List.replicate n 'X'⟩, purpose := "BOUNDARY_VALUE",
              scenario := "Maximum length (" ++ toString n ++ " characters)" }])
      else []
    else if hasSub "DATE".data paramType.data || hasSub "TIME".data paramType.data then
      [{ value := "GETDATE()", purpose := "CURRENT_VALUE",
         scenario := "Current date/time" },
       { value := "NULL", purpose := "NULL_VALUE", scenario := "Null date/time" }] ++
      (if p.usagePattern = "FILTER_PARAMETER" then
        [{ value := "DATEADD(day, -30, GETDATE())", purpose := "RELATIVE_VALUE",
           scenario := "30 days ago" },
         { value := "DATEADD(day, 30, GETDATE())", purpose := "RELATIVE_VALUE",
           scenario := "30 days in future" }]
       else [])
    else []
  (defaultVals ++ literalVals ++ typeVals) ++
    [{ value := "NULL", purpose := "NULL_VALUE", scenario := "Null value handling" }]

/-- `ParameterTracker.extract_test_values`: one entry per parameter-usage
record.  (The source's condition dedup check compares a condition string
against a list of dicts, which is never equal, so every truthy condition
is collected.) -/
def extractTestValues (paramUsage : List ParamUsageData) : List TestValueEntry :=
  paramUsage.map (fun p =>
    { parameterName := p.parameterName
      dataType := p.parameterType
      defaultValue := p.defaultValue
      usageContext := p.usagePattern
      conditions := p.occurrences.foldl (fun acc o =>
        match o.condition with
        | none => acc
        | some c => if c = "" then acc else acc ++ [(c, o.entity, o.usage)]) []
      suggestedTestValues := generateTestValues p })

/-- C5: for every list of declared parameters and every occurrence
finder, `extract_test_values` produces exactly one entry per parameter in
order, and each entry's suggested test values contain one whose purpose
is `NULL_VALUE` — the NULL candidate is appended unconditionally at the
end of `_generate_test_values`. -/
theorem every_parameter_gets_null_candidate (params : List ParamMeta)
    (occFn : String → List ParamOccurrence) :
    (extractTestValues (analyzeParameterUsage params occFn)).map (·.parameterName) =
      params.map (·.name) ∧
    ∀ e ∈ extractTestValues (analyzeParameterUsage params occFn),
      ∃ v ∈ e.suggestedTestValues, v.purpose = "NULL_VALUE" := by
  constructor
  · simp [extractTestValues, analyzeParameterUsage]
  · intro e he
    simp only [extractTestValues, List.mem_map] at he
    obtain ⟨p, -, rfl⟩ := he
    refine ⟨{ value := "NULL", purpose := "NULL_VALUE",
              scenario := "Null value handling" }, ?_, rfl⟩
    simp only [generateTestValues]
    exact List.mem_append_right _ (List.mem_singleton_self _)

end SqlParser

namespace SqlParser

/-- `ParameterTracker._find_containing_block`: the smallest block whose
line range contains the line (Python `min` keeps the first minimum). -/
def findContainingBlock (blocks : List LogicalBlock) (ln : Int) : Option String :=
  match blocks.filter (fun b => b.lineLo ≤ ln && ln ≤ b.lineHi) with
  | [] => none
  | b :: rest =>
    some ((rest.foldl
      (fun acc c => if c.lineHi - c.lineLo < acc.lineHi - acc.lineLo then c else acc)
      b).id)

/-- `ParameterTracker._find_parameter_occurrences`: one occurrence per
word-boundary match of the parameter name, with the ±50-character context
and the containing block; the classification helpers are parameters. -/
def findParameterOccurrences
    (classify : String → String → Option String → String)
    (entityOf : String → String → Option String → Option String)
    (condOf : String → String → Option String)
    (blocks : List LogicalBlock) (sql : List Char) (paramName : String) :
    List ParamOccurrence :=
  (wbMatches paramName.data sql).map (fun i =>
    let ctx : String := ⟨(sql.take (i + paramName.data.length + 50)).drop (i - 50)⟩
    let ln : Nat := nlCount (sql.take i) + 1
    let bid := findContainingBlock blocks (Int.ofNat ln)
    { blockId := bid
      lineNumber := ln
      usage := classify paramName ctx bid
      context := ctx
      entity := entityOf paramName ctx bid
      condition := condOf paramName ctx })

/-- The simple IF/ELSE scenario input of the spec. -/
def c6sql : String :=
  "CREATE PROCEDURE dbo.P @x INT AS IF @x IS NULL BEGIN SET @x = 30 END ELSE BEGIN SELECT * FROM T WHERE Id = @x END"

/-- C6: the occurrence pattern `\b@x\b` cannot match anywhere in the
scenario input — `@` is not a word character, so the leading `\b` needs a
word character immediately before the `@`, and every `@x` in the text
follows a space — hence the tracker records zero occurrences for `@x`
(usage pattern `UNUSED_PARAMETER`), for every choice of the
classification helpers and blocks; in particular no occurrence is
classified as a conditional NULL-check or as `FILTER_CONDITION`,
contradicting the claim. -/
theorem if_else_scenario_param_occurrences_empty
    (classify : String → String → Option String → String)
    (entityOf : String → String → Option String → Option String)
    (condOf : String → String → Option String)
    (blocks : List LogicalBlock) :
    analyzeParameterUsage [{ name := "@x", dataType := "INT", defaultValue := none }]
        (fun pname =>
          findParameterOccurrences classify entityOf condOf blocks c6sql.data pname) =
      [{ parameterName := "@x", parameterType := "INT", defaultValue := none,
         usagePattern := "UNUSED_PARAMETER", occurrences := [] }] := by
  have hwb : wbMatches "@x".data c6sql.data = [] := by decide
  simp [analyzeParameterUsage, findParameterOccurrences, hwb,
    determineUsagePattern, usageCounts, maxByCount]

end SqlParser

namespace SqlParser

/-! ## StructureAnalyzer metadata extraction
(`StructureAnalyzer.extract_metadata`) -/

/-- A declared procedure parameter of the metadata record. -/
structure ProcParam where
  name : String
  dataType : String
  defaultValue : Option String
deriving Repr, DecidableEq

/-- The metadata record; `headerComments` is the (possibly empty) comment
list — the source adds the key only when it is non-empty. -/
structure ProcMetadata where
  procedureName : String
  parameters : List ProcParam
  headerComments : List String
deriving Repr, DecidableEq

/-- The `[\w\.\[\]]` character class of the procedure-name group. -/
def nameClassChar (c : Char) : Bool :=
  isWordChar c || c = '.' || c = '[' || c = ']'

/-- The tail of the `CREATE PROC(EDURE)?` pattern:
`\s+(\[?[\w\.\[\]]+\]?)(?:\s+|$)` — whitespace, the name group (maximal
run of name-class characters, which subsumes the optional brackets), then
whitespace or end of input (the greedy `\s+` is part of the match).
Returns the captured name and the characters consumed. -/
def createProcTail (r : List Char) (consumed : Nat) : Option (List Char × Nat) :=
  let k := wsRun r
  if k = 0 then none
  else
    let r2 := r.drop k
    let nm := r2.takeWhile nameClassChar
    if nm.isEmpty then none
    else
      let r3 := r2.drop nm.length
      if r3.isEmpty then some (nm, consumed + k + nm.length)
      else
        let k2 := wsRun r3
        if k2 ≠ 0 then some (nm, consumed + k + nm.length + k2)
        else none

/-- Match of `CREATE\s+PROC(?:EDURE)?\s+(...)` at the head of `s`
(case-insensitive), trying the greedy `EDURE` branch first. -/
def createProcMatchAt (s : List Char) : Option (List Char × Nat) :=
  if beginsWithCI "CREATE".data s then
    let k1 := wsRun (s.drop 6)
    if k1 = 0 then none
    else
      let r2 := (s.drop 6).drop k1
      if beginsWithCI "PROC".data r2 then
        if beginsWithCI "EDURE".data (r2.drop 4) then
          match createProcTail ((r2.drop 4).drop 5) (6 + k1 + 4 + 5) with
          | some res => some res
          | none => createProcTail (r2.drop 4) (6 + k1 + 4)
        else createProcTail (r2.drop 4) (6 + k1 + 4)
      else none
  else none

/-- `re.search` scan for the `CREATE PROC` pattern: the captured name and
the absolute end position of the match. -/
def createProcSearch : List Char → Nat → Option (List Char × Nat)
  | [], _ => none
  | c :: cs, i =>
    match createProcMatchAt (c :: cs) with
    | some (nm, len) => some (nm, i + len)
    | none => createProcSearch cs (i + 1)

/-- Python `str.strip('[]')`. -/
def stripBrackets (cs : List Char) : List Char :=
  ((cs.dropWhile (fun c => c = '[' || c = ']')).reverse.dropWhile
    (fun c => c = '[' || c = ']')).reverse

/-- The header-comment `finditer` over
`/\*\s*([\s\S]*?)\s*\*/|--\s*(.*)`: `skip` steps over the remainder of
the previous match.  A block comment contributes its stripped body when
non-blank; a line comment's `\s*` may cross newlines, after which `(.*)`
captures up to the next newline, contributed when non-empty. -/
def ehcGo : List Char → Nat → List String
  | [], _ => []
  | _ :: cs, Nat.succ k => ehcGo cs k
  | c :: cs, 0 =>
    if beginsWith "/*".data (c :: cs) then
      match firstSubIdx "*/".data (cs.drop 1) with
      | some j =>
        let stripped := stripWs ((cs.drop 1).take j)
        (if stripped.isEmpty then [] else [(⟨stripped⟩ : String)]) ++
          ehcGo cs (j + 3)
      | none => ehcGo cs 0
    else if beginsWith "--".data (c :: cs) then
      let after := cs.drop 1
      let w := wsRun after
      let content := (after.drop w).takeWhile (· ≠ '\n')
      (if content.isEmpty then [] else [(⟨stripWs content⟩ : String)]) ++
        ehcGo cs (1 + w + content.length - 1 + 1)
    else ehcGo cs 0

/-- Header comments collected from a text span. -/
def extractHeaderComments (cs : List Char) : List String := ehcGo cs 0

/-- The `[\w\(\)\d\,\.]` data-type character class of the parameter
pattern (note it contains the comma). -/
def typeClassChar (c : Char) : Bool :=
  isWordChar c || c = '(' || c = ')' || c = ',' || c = '.'

/-- Match of the parameter pattern
`@(\w+)\s+([\w\(\)\d\,\.]+)(?:\s*=\s*([^,\n]*))?[,\s]*` directly after an
`@`; returns the parameter record and the characters consumed after the
`@`. -/
def paramMatchAt (cs : List Char) : Option (ProcParam × Nat) :=
  let w := cs.takeWhile isWordChar
  if w.isEmpty then none
  else
    let r1 := cs.drop w.length
    let k1 := wsRun r1
    if k1 = 0 then none
    else
      let r2 := r1.drop k1
      let ty := r2.takeWhile typeClassChar
      if ty.isEmpty then none
      else
        let r3 := r2.drop ty.length
        let k2 := wsRun r3
        let base : ProcParam :=
          { name := "@" ++ (⟨w⟩ : String), dataType := ⟨stripWs ty⟩,
            defaultValue := none }
        match r3.drop k2 with
        | '=' :: r4 =>
          let k3 := wsRun r4
          let dv := (r4.drop k3).takeWhile (fun ch => ch ≠ ',' && ch ≠ '\n')
          let afterDv := (r4.drop k3).drop dv.length
          let k4 := runLen (fun ch => ch = ',' || isWsChar ch) afterDv
          some ({ base with defaultValue :=
              if dv.isEmpty then none else some ⟨stripWs dv⟩ },
            w.length + k1 + ty.length + k2 + 1 + k3 + dv.length + k4)
        | _ =>
          let k4 := runLen (fun ch => ch = ',' || isWsChar ch) r3
          some (base, w.length + k1 + ty.length + k4)

/-- `re.findall` of the parameter pattern: scan for `@`, match, continue
after each match (`skip` steps over the previous match). -/
def findParamsGo : List Char → Nat → List ProcParam
  | [], _ => []
  | _ :: cs, Nat.succ k => findParamsGo cs k
  | c :: cs, 0 =>
    if c = '@' then
      match paramMatchAt cs with
      | some (p, len) => p :: findParamsGo cs len
      | none => findParamsGo cs 0
    else findParamsGo cs 0

/-- `StructureAnalyzer.extract_metadata`: the procedure name and
parameters come from the `CREATE PROC` match when it exists; header
comments are always collected from the first 1000 characters; without a
match the caller-provided name (empty when absent) is kept and the
parameter list stays empty. -/
def extractMetadata (sql : String) (provided : Option String) : ProcMetadata :=
  let headerComments := extractHeaderComments (sql.data.take 1000)
  match createProcSearch sql.data 0 with
  | none =>
    { procedureName := provided.getD "", parameters := [],
      headerComments := headerComments }
  | some (nm, endPos) =>
    let paramSection0 := stripWs (sql.data.drop endPos)
    let paramSection :=
      match firstSubIdx "AS".data paramSection0 with
      | some idx => if 0 < idx then stripWs (paramSection0.take idx) else paramSection0
      | none => paramSection0
    { procedureName := ⟨stripBrackets nm⟩
      parameters := findParamsGo paramSection 0
      headerComments := headerComments }

/-- C10: whenever the `CREATE PROC[EDURE]` pattern does not match the
input, `extract_metadata` returns (without raising — the embedding is
total) a record whose procedure name is the caller-provided name (empty
string when none was given) and whose parameter list is empty, while the
header comments are still the ones collected from the first 1000
characters of the text. -/
theorem extract_metadata_without_create_proc (sql : String)
    (provided : Option String) (h : createProcSearch sql.data 0 = none) :
    (extractMetadata sql provided).procedureName = provided.getD "" ∧
    (extractMetadata sql provided).parameters = [] ∧
    (extractMetadata sql provided).headerComments =
      extractHeaderComments (sql.data.take 1000) := by
  simp [extractMetadata, h]

/-- C10 (witness): the theorem applied to a text with no `CREATE PROC`
preamble but a line comment in its header. -/
theorem extract_metadata_without_create_proc_witness :
    (extractMetadata "-- utility script\nSELECT 1;" (some "my_proc")).procedureName =
      (some "my_proc").getD "" ∧
    (extractMetadata "-- utility script\nSELECT 1;" (some "my_proc")).parameters = [] ∧
    (extractMetadata "-- utility script\nSELECT 1;" (some "my_proc")).headerComments =
      extractHeaderComments ("-- utility script\nSELECT 1;".data.take 1000) :=
  extract_metadata_without_create_proc "-- utility script\nSELECT 1;"
    (some "my_proc") (by decide)

end SqlParser
